import Mathlib

/-!
Verification of the prompt-cli core against its specification.

This file gives a shallow embedding, in Lean 4, of the core algorithms of
the repository:

* the LCS/edit-distance based line diff (src/lib/diff/text-diff.ts),
* the structural JSON diff (src/commands/eval.ts),
* the expectation evaluators (expectations module),
* the template renderer (jsonl-reader.ts render functions),
* the evaluation runner (src/lib/evaluation/runner.ts), and
* the multi-run aggregator (aggregate module).

JavaScript numbers are modelled as rationals, machine strings as Lean
strings, thrown exceptions as Except values, and the asynchronous external
collaborators of the runner (prompt registry, generation backend) as
explicitly passed functions.  Each definition is translated from the
TypeScript source it names.
-/

namespace TextDiff

/-- Line diff entry types; the source union is "added" | "removed" | "unchanged"
(there is no "modified" variant). -/
inductive DiffType where
  | added
  | removed
  | unchanged
deriving DecidableEq, Repr

/-- One line of a diff, as in interface DiffLine of text-diff.ts. -/
structure DiffLine where
  type : DiffType
  content : String
  lineNumber : Option Nat
deriving DecidableEq, Repr

/-- Result of comparing two texts, as in interface TextDiffResult. -/
structure TextDiffResult where
  lines : List DiffLine
  addedCount : Nat
  removedCount : Nat
  unchangedCount : Nat
  hasChanges : Bool
deriving DecidableEq, Repr

/-- Edit-distance table of computeLineDiff, in functional form.  The source
fills dp where dp[i][j] is the edit distance between the first i old lines
and the first j new lines, with the recurrence on the LAST lines of the
prefixes.  Here ed ro rn computes dp[i][j] where ro is the REVERSED list of
the first i old lines and rn the reversed list of the first j new lines, so
the heads of ro, rn are oldLines[i-1], newLines[j-1]. -/
def ed : List String → List String → Nat
  | [], rn => rn.length
  | ro, [] => ro.length
  | x :: ro, y :: rn =>
    if x = y then ed ro rn
    else 1 + min (ed ro (y :: rn)) (min (ed (x :: ro) rn) (ed ro rn))
termination_by ro rn => ro.length + rn.length
decreasing_by all_goals simp_arith

/-- Backtracking loop of computeLineDiff.  The state (i, j) is represented by
ro = the reversed first-i old lines paired with their 1-based line numbers,
and rn = the reversed first-j new lines.  The source while loop unshifts one
entry per iteration, so entries produced at larger (i, j) end up later in the
result; recursively, the entry for the current state is appended after the
result for the decremented state.  The three branches mirror the source:
match (unchanged), insertion (added, when i = 0 or dp[i][j-1] <= dp[i-1][j]),
deletion (removed, when i > 0); the source's final fallback break is
unreachable (theorem c10 below) and has no corresponding case here. -/
def bt : List (Nat × String) → List String → List DiffLine
  | [], [] => []
  | [], y :: rn => bt [] rn ++ [⟨DiffType.added, y, none⟩]
  | (i, x) :: ro, [] => bt ro [] ++ [⟨DiffType.removed, x, some i⟩]
  | (i, x) :: ro, y :: rn =>
    if x = y then
      bt ro rn ++ [⟨DiffType.unchanged, x, some i⟩]
    else if ed (x :: ro.map Prod.snd) rn ≤ ed (ro.map Prod.snd) (y :: rn) then
      bt ((i, x) :: ro) rn ++ [⟨DiffType.added, y, none⟩]
    else
      bt ro (y :: rn) ++ [⟨DiffType.removed, x, some i⟩]
termination_by ro rn => ro.length + rn.length
decreasing_by all_goals simp_arith

/-- Pair each line with its 1-based line number. -/
def numberLines (lines : List String) : List (Nat × String) :=
  lines.enum.map (fun p => (p.1 + 1, p.2))

/-- Compute line-by-line diff using the DP table and backtracking, as in
function computeLineDiff of text-diff.ts. -/
def computeLineDiff (oldLines newLines : List String) : List DiffLine :=
  bt (numberLines oldLines).reverse newLines.reverse

/-- Split on line breaks: the source splits on the pattern matching an
optional carriage return followed by a newline, which strips the terminator;
a carriage return not followed by a newline stays in the line content. -/
def splitLinesCore : List Char → List Char → List String
  | [], acc => [String.mk acc.reverse]
  | '\r' :: '\n' :: rest, acc => String.mk acc.reverse :: splitLinesCore rest []
  | '\n' :: rest, acc => String.mk acc.reverse :: splitLinesCore rest []
  | c :: rest, acc => splitLinesCore rest (c :: acc)
termination_by cs _ => cs.length
decreasing_by all_goals simp_arith

/-- Split a text into lines as the source does. -/
def splitLines (s : String) : List String := splitLinesCore s.toList []

/-- Compare two text strings and return a line-by-line diff, as in function
diffText of text-diff.ts.  An empty string yields zero lines, not one empty
line. -/
def diffText (oldText newText : String) : TextDiffResult :=
  let oldLines := if oldText = "" then [] else splitLines oldText
  let newLines := if newText = "" then [] else splitLines newText
  let diff := computeLineDiff oldLines newLines
  let addedCount := (diff.filter (fun l => l.type == DiffType.added)).length
  let removedCount := (diff.filter (fun l => l.type == DiffType.removed)).length
  let unchangedCount := (diff.filter (fun l => l.type == DiffType.unchanged)).length
  { lines := diff
    addedCount := addedCount
    removedCount := removedCount
    unchangedCount := unchangedCount
    hasChanges := addedCount > 0 || removedCount > 0 }

/-- Lines of a text as diffText computes them: an empty string yields zero
lines. -/
def textLines (s : String) : List String := if s = "" then [] else splitLines s

/-- Projection extracting the old-text part of a diff line: removed and
unchanged lines carry old-text content and a line number. -/
def oldOf (l : DiffLine) : Option (Nat × String) :=
  if l.type = DiffType.added then none else some (l.lineNumber.getD 0, l.content)

/-- Projection extracting the new-text part of a diff line: added and
unchanged lines carry new-text content. -/
def newOf (l : DiffLine) : Option String :=
  if l.type = DiffType.removed then none else some l.content

/-- Unchanged diff line for a numbered line pair. -/
def unchOf (p : Nat × String) : DiffLine :=
  ⟨DiffType.unchanged, p.2, some p.1⟩

/-- Numbering of lines starting at a given index (numberLines is the case
n = 1). -/
def numberFrom (n : Nat) : List String → List (Nat × String)
  | [] => []
  | w :: ws => (n, w) :: numberFrom (n + 1) ws

/-- Whether some removed line is immediately followed by an added line. -/
def adjRemovedAdded (l : List DiffLine) : Bool :=
  (l.zip l.tail).any
    (fun p => p.1.type == DiffType.removed && p.2.type == DiffType.added)

end TextDiff

/-- First-occurrence deduplication with an accumulator of already seen
elements: building a JS Set and iterating it preserves insertion order and
keeps the first occurrence of each element.  Used by the renderer (the
variable sets) and the structural diff (the union of object keys). -/
def dedupFirst (seen : List String) : List String → List String
  | [] => []
  | x :: xs =>
    if x ∈ seen then dedupFirst seen xs else x :: dedupFirst (x :: seen) xs

/-- The seen-accumulator after dedupFirst has processed a list (for reasoning
about dedupFirst over an append). -/
def seenAfter (seen : List String) : List String → List String
  | [] => seen
  | x :: xs =>
    if x ∈ seen then seenAfter seen xs else seenAfter (x :: seen) xs

namespace Evaluation

/-! Expectation evaluators (expectations module). -/

/-- Expectations, as the tagged union of types.ts: Contains, Regex, MaxWords.
Optional fields of the source interfaces are Option values; JS numbers are
rationals. -/
inductive Expectation where
  | contains (value : String) (caseSensitive : Option Bool)
  | regex (value : String) (flags : Option String)
  | maxWords (value : ℚ)
deriving DecidableEq, Repr

/-- The detail records the evaluators put in ExpectationResult.details;
in the source details is an untyped string-keyed record, with one shape per
evaluator (and one more for the regex compile-failure path). -/
inductive Details where
  | containsDetails (searched : String) (caseSensitive : Bool) (found : Bool)
  | regexDetails (pattern : String) (flags : String) (matched : Bool)
      (match_ : Option String)
  | regexErrorDetails (pattern : String) (error : String)
  | maxWordsDetails (wordCount : ℚ) (maxWords : ℚ) (passed : Bool)
deriving DecidableEq, Repr

/-- Result of evaluating one expectation, as in interface ExpectationResult. -/
structure ExpectationResult where
  expectation : Expectation
  passed : Bool
  error : Option String
  details : Option Details
deriving DecidableEq, Repr

/-- Whitespace for the purposes of JS trim and the \s character class
(the ASCII part plus the common Unicode spaces; the claims only exercise
ASCII whitespace). -/
def isWs (c : Char) : Bool :=
  c == ' ' || c == '\t' || c == '\n' || c == '\r' || c == '\x0b' ||
    c == '\x0c' || c == ' ' || c == '﻿'

/-- JS String.prototype.trim: strip leading and trailing whitespace. -/
def jsTrim (s : String) : String :=
  String.mk (((s.toList.dropWhile isWs).reverse.dropWhile isWs).reverse)

/-- Dropping a prefix never lengthens a list (used for termination of the
whitespace-run scanners below). -/
theorem dropWhile_length_le (p : Char → Bool) (l : List Char) :
    (l.dropWhile p).length ≤ l.length := by
  induction l with
  | nil => simp
  | cons c t ih =>
    by_cases h : p c
    · simp only [List.dropWhile_cons, h, if_true, List.length_cons]
      omega
    · simp [List.dropWhile_cons, h]

/-- JS split on a whitespace-run pattern: fields between maximal whitespace
runs, with an empty leading/trailing field when the string starts/ends with
whitespace (countWords only applies this to trimmed text). -/
def splitWsRuns : List Char → List Char → List String
  | [], cur => [String.mk cur.reverse]
  | c :: rest, cur =>
    if isWs c then
      String.mk cur.reverse :: splitWsRuns (rest.dropWhile isWs) []
    else
      splitWsRuns rest (c :: cur)
termination_by cs _ => cs.length
decreasing_by
  · have hle := dropWhile_length_le isWs rest
    simp only [List.length_cons]
    omega
  · simp_arith

/-- Count the number of words in a string, as in function countWords of the
expectations module: zero for empty or whitespace-only text, otherwise the
field count of the trimmed text split on whitespace runs. -/
def countWords (text : String) : Nat :=
  if text = "" ∨ jsTrim text = "" then 0
  else (splitWsRuns (jsTrim text).toList []).length

/-- Specification-side word count: the number of maximal whitespace-free
runs in the string (what the spec calls whitespace-delimited tokens). -/
def countRuns : List Char → Nat
  | [] => 0
  | c :: rest =>
    if isWs c then countRuns rest
    else 1 + countRuns (rest.dropWhile (fun d => ! isWs d))
termination_by cs => cs.length
decreasing_by
  · simp_arith
  · have hle := dropWhile_length_le (fun d => ! isWs d) rest
    simp only [List.length_cons]
    omega

/-- The number of maximal whitespace runs in a string (for relating the
split-based and run-based word counts). -/
def wsRunCount : List Char → Nat
  | [] => 0
  | c :: rest =>
    if isWs c then 1 + wsRunCount (rest.dropWhile isWs) else wsRunCount rest
termination_by cs => cs.length
decreasing_by
  · have hle := dropWhile_length_le isWs rest
    simp only [List.length_cons]
    omega
  · simp_arith

/-- Substring scan for JS String.prototype.includes: test the needle as a
prefix at every position. -/
def includesCore (needle : List Char) : List Char → Bool
  | [] => decide (needle = [])
  | c :: rest => needle.isPrefixOf (c :: rest) || includesCore needle rest

/-- JS String.prototype.includes as a substring test. -/
def jsIncludes (hay needle : String) : Bool :=
  includesCore needle.toList hay.toList

/-- Evaluate a "contains" expectation (function evaluateContains). -/
def evaluateContains (output : String) (value : String)
    (caseSensitiveOpt : Option Bool) : ExpectationResult :=
  let caseSensitive := caseSensitiveOpt.getD false
  let outputToSearch := if caseSensitive then output else output.toLower
  let valueToFind := if caseSensitive then value else value.toLower
  let passed := jsIncludes outputToSearch valueToFind
  { expectation := Expectation.contains value caseSensitiveOpt
    passed := passed
    error := if passed then none else
      some ("Output does not contain \"" ++ value ++ "\"" ++
        (if caseSensitive then "" else " (case-insensitive)"))
    details := some (Details.containsDetails value caseSensitive passed) }

/-- A compiled host regular expression: its test and exec(...)[0]
behaviours.  The JS RegExp engine itself is outside the repository, so it is
passed in abstractly. -/
structure CompiledRegex where
  test : String → Bool
  exec : String → Option String

/-- Host regex compilation: new RegExp(pattern, flags), which either throws
(modelled as Except.error carrying the host error message) or yields a
compiled regex. -/
abbrev RegexEngine : Type := String → String → Except String CompiledRegex

/-- Evaluate a "regex" expectation (function evaluateRegex): the try/catch
around RegExp construction turns an invalid pattern into a failed result
carrying the pattern and the error text as details. -/
def evaluateRegex (engine : RegexEngine) (output : String) (value : String)
    (flagsOpt : Option String) : ExpectationResult :=
  let flags := flagsOpt.getD ""
  match engine value flags with
  | Except.ok regex =>
    let passed := regex.test output
    { expectation := Expectation.regex value flagsOpt
      passed := passed
      error := if passed then none else
        some ("Output does not match regex pattern: " ++ value)
      details := some (Details.regexDetails value
        (if flags = "" then "none" else flags) passed
        (if passed then regex.exec output else none)) }
  | Except.error e =>
    { expectation := Expectation.regex value flagsOpt
      passed := false
      error := some ("Invalid regex pattern: " ++ e)
      details := some (Details.regexErrorDetails value e) }

/-- Evaluate a "maxWords" expectation (function evaluateMaxWords). -/
def evaluateMaxWords (output : String) (value : ℚ) : ExpectationResult :=
  let wordCount := countWords output
  let maxWords := value
  let passed := decide ((wordCount : ℚ) ≤ maxWords)
  { expectation := Expectation.maxWords value
    passed := passed
    error := if passed then none else
      some ("Output has " ++ toString wordCount ++
        " words, but maximum allowed is " ++ toString maxWords)
    details := some (Details.maxWordsDetails (wordCount : ℚ) maxWords passed) }

/-- Evaluate a single expectation (function evaluateExpectation); the tagged
union is closed, so the source's defensive unknown-type branch has no
corresponding case. -/
def evaluateExpectation (engine : RegexEngine) (output : String) :
    Expectation → ExpectationResult
  | Expectation.contains value caseSensitive =>
      evaluateContains output value caseSensitive
  | Expectation.regex value flags => evaluateRegex engine output value flags
  | Expectation.maxWords value => evaluateMaxWords output value

/-- Evaluate a list of expectations in order (function evaluateExpectations). -/
def evaluateExpectations (engine : RegexEngine) (output : String)
    (expectations : List Expectation) : List ExpectationResult :=
  expectations.map (evaluateExpectation engine output)

/-! Template rendering (renderTemplate and renderTemplateWithMetadata of
jsonl-reader.ts, with extractVariables of prompt-validation). -/

/-- A word character for the placeholder pattern (the regex \w class). -/
def isWordChar (c : Char) : Bool :=
  (decide ('A' ≤ c) && decide (c ≤ 'Z')) ||
    (decide ('a' ≤ c) && decide (c ≤ 'z')) ||
    (decide ('0' ≤ c) && decide (c ≤ '9')) || c == '_'

/-- One piece of a template: a literal character, or a placeholder with its
variable name. -/
inductive Tok where
  | lit (c : Char)
  | ph (name : String)
deriving DecidableEq, Repr

/-- Scan a template for non-overlapping placeholder matches, left to right,
as the global regex over two braces, a word-character run and two closing
braces does: at each position try to match a placeholder; on success resume
after it, on failure emit one literal character and retry at the next
position. -/
def tokenize : List Char → List Tok
  | [] => []
  | [c] => [Tok.lit c]
  | c :: c2 :: rest2 =>
    if c = '\x7b' ∧ c2 = '\x7b' then
      let name := rest2.takeWhile isWordChar
      if name ≠ [] ∧ (rest2.drop name.length).take 2 = ['\x7d', '\x7d'] then
        Tok.ph (String.mk name) :: tokenize (rest2.drop (name.length + 2))
      else
        Tok.lit c :: tokenize (c2 :: rest2)
    else
      Tok.lit c :: tokenize (c2 :: rest2)
termination_by cs => cs.length
decreasing_by all_goals simp_arith [List.length_drop]

/-- Extract the set of placeholder identifiers of a template, in order of
first occurrence (function extractVariables of prompt-validation). -/
def extractVariables (template : String) : List String :=
  dedupFirst []
    ((tokenize template.toList).filterMap
      (fun t => match t with | Tok.ph n => some n | _ => none))

/-- The four missing-variable strategies of RenderOptions. -/
inductive MissingVariableStrategy where
  | error
  | warn
  | ignore
  | empty
deriving DecidableEq, Repr

/-- Options for rendering: absent options are none; renderTemplate applies
the defaults (warn and the literal missing-placeholder). -/
structure RenderOptions where
  missingVariableStrategy : Option MissingVariableStrategy := none
  missingVariablePlaceholder : Option String := none
deriving DecidableEq, Repr

/-- The literal placeholder text of a variable name, two braces around the
name (what the regex matched, used by the ignore strategy). -/
def phText (name : String) : String := "\x7b\x7b" ++ name ++ "\x7d\x7d"

/-- A provided variable value, already stringified: none stands for a null
or undefined value, which the source renders as the empty string; some s is
a value whose JS string form is s. -/
abbrev VarValue : Type := Option String

/-- The string substituted for a provided value: String(value ?? ""). -/
def varText (v : VarValue) : String := v.getD ""

/-- Replace every matched placeholder, as the regex replace callback does:
a provided variable substitutes its value; a missing one follows the
strategy (error throws, warn substitutes the placeholder text, ignore keeps
the original match, empty substitutes nothing). -/
def renderToks (vars : List (String × VarValue))
    (strategy : MissingVariableStrategy) (placeholder : String) :
    List Tok → Except String (List Char)
  | [] => Except.ok []
  | Tok.lit c :: ts => (renderToks vars strategy placeholder ts).map (c :: ·)
  | Tok.ph name :: ts =>
    match vars.lookup name with
    | some v =>
      (renderToks vars strategy placeholder ts).map ((varText v).toList ++ ·)
    | none =>
      match strategy with
      | MissingVariableStrategy.error =>
        Except.error ("Missing variable: " ++ name)
      | MissingVariableStrategy.warn =>
        (renderToks vars strategy placeholder ts).map (placeholder.toList ++ ·)
      | MissingVariableStrategy.ignore =>
        (renderToks vars strategy placeholder ts).map ((phText name).toList ++ ·)
      | MissingVariableStrategy.empty => renderToks vars strategy placeholder ts

/-- Render a template by interpolating variables, as in function
renderTemplate of jsonl-reader.ts: under the error strategy a missing
required variable fails up front with a message enumerating the missing
names; otherwise every placeholder occurrence is replaced per the
strategy. -/
def renderTemplate (template : String) (vars : List (String × VarValue))
    (options : RenderOptions) : Except String String :=
  let missingVariableStrategy :=
    options.missingVariableStrategy.getD MissingVariableStrategy.warn
  let missingVariablePlaceholder :=
    options.missingVariablePlaceholder.getD "\x7b\x7bMISSING\x7d\x7d"
  let requiredVariables := extractVariables template
  let providedVarSet := vars.map Prod.fst
  let missing := requiredVariables.filter (fun v => ¬ providedVarSet.contains v)
  if missing.length > 0 ∧
      missingVariableStrategy = MissingVariableStrategy.error then
    Except.error ("Missing required variables: " ++
      String.intercalate ", " missing ++
      "\nRequired: " ++ String.intercalate ", " requiredVariables ++
      "\nProvided: " ++ String.intercalate ", " providedVarSet)
  else
    (renderToks vars missingVariableStrategy missingVariablePlaceholder
      (tokenize template.toList)).map String.mk

/-- Result of renderTemplateWithMetadata. -/
structure RenderResult where
  rendered : String
  missingVariables : List String
  unusedVariables : List String
deriving DecidableEq, Repr

/-- Render a template and report missing and unused variables, as in
function renderTemplateWithMetadata: an explicit error-strategy failure
propagates; any other failure falls back to a warn-strategy render. -/
def renderTemplateWithMetadata (template : String)
    (vars : List (String × VarValue)) (options : RenderOptions) :
    Except String RenderResult :=
  let requiredVariables := extractVariables template
  let providedVarSet := dedupFirst [] (vars.map Prod.fst)
  let missingVariables :=
    requiredVariables.filter (fun v => ¬ providedVarSet.contains v)
  let unusedVariables :=
    providedVarSet.filter (fun v => ¬ requiredVariables.contains v)
  match renderTemplate template vars options with
  | Except.ok rendered =>
    Except.ok ⟨rendered, missingVariables, unusedVariables⟩
  | Except.error e =>
    if options.missingVariableStrategy = some MissingVariableStrategy.error then
      Except.error e
    else
      (renderTemplate template vars
        { options with
            missingVariableStrategy := some MissingVariableStrategy.warn }).map
        (fun rendered => ⟨rendered, missingVariables, unusedVariables⟩)

/-! Evaluation runner (runner.ts) and result aggregation (the aggregate
module).  The external collaborators -- prompt registry, generation backend,
wall clock -- are passed in explicitly; both are awaited synchronously in the
source, so the asynchronous calls are plain function applications here. -/

/-- Token usage triple (input, output, total), JS numbers as rationals. -/
structure TokenUsage where
  input : ℚ
  output : ℚ
  total : ℚ
deriving DecidableEq, Repr

/-- Result of a provider generate call (interface ProviderResult): the
output text, the provider-reported latency, and optional token usage. -/
structure ProviderResult where
  output : String
  latency : ℚ
  tokens : Option TokenUsage
deriving DecidableEq, Repr

/-- One evaluation fixture (interface EvaluationFixture): a prompt
reference, a variable map (source field name: variables, renamed here since
that word is reserved) and the expectations to check. -/
structure EvaluationFixture where
  prompt : String
  variableMap : List (String × VarValue)
  expectations : List Expectation
deriving DecidableEq, Repr

/-- Result of evaluating a single fixture (interface FixtureResult); latency
and tokens are optional fields. -/
structure FixtureResult where
  fixture : EvaluationFixture
  renderedPrompt : String
  output : Option String
  expectationResults : List ExpectationResult
  passed : Bool
  error : Option String
  latency : Option ℚ
  tokens : Option TokenUsage
deriving DecidableEq, Repr

/-- Complete evaluation run result (interface EvaluationRunResult);
timestamps are epoch instants from the ambient clock. -/
structure EvaluationRunResult where
  startedAt : Int
  completedAt : Int
  duration : ℚ
  fixtureResults : List FixtureResult
  totalFixtures : Nat
  passedFixtures : Nat
  failedFixtures : Nat
  passRate : ℚ
  totalTokens : Option TokenUsage
  averageLatency : Option ℚ
  totalLatency : Option ℚ
deriving DecidableEq, Repr

/-- Evaluate a single fixture, as in function evaluateFixture of runner.ts:
load the prompt version, render with the error strategy, call the provider,
score the expectations; any failure short-circuits into a failed
FixtureResult carrying the error message.  The success branch of the source
constructs its result without latency or tokens keys, so both fields are
none in every case. -/
def evaluateFixture (loadPromptVersion : String → Except String String)
    (generate : String → Except String ProviderResult) (engine : RegexEngine)
    (fixture : EvaluationFixture) : FixtureResult :=
  match (do
    let template ← loadPromptVersion fixture.prompt
    let renderedPrompt ← renderTemplate template fixture.variableMap
      { missingVariableStrategy := some MissingVariableStrategy.error }
    let providerResult ← generate renderedPrompt
    Except.ok (renderedPrompt, providerResult) :
      Except String (String × ProviderResult)) with
  | Except.ok (renderedPrompt, providerResult) =>
    let expectationResults :=
      evaluateExpectations engine providerResult.output fixture.expectations
    let passed := expectationResults.all (fun r => r.passed)
    { fixture := fixture
      renderedPrompt := renderedPrompt
      output := some providerResult.output
      expectationResults := expectationResults
      passed := passed
      error := none
      latency := none
      tokens := none }
  | Except.error e =>
    { fixture := fixture
      renderedPrompt := ""
      output := none
      expectationResults := []
      passed := false
      error := some e
      latency := none
      tokens := none }

/-- The fixture loop of runEvaluation: strictly in order, stopping after a
failed fixture when stopOnError is set. -/
def runFixturesLoop (loadPromptVersion : String → Except String String)
    (generate : String → Except String ProviderResult) (engine : RegexEngine)
    (stopOnError : Bool) : List EvaluationFixture → List FixtureResult
  | [] => []
  | f :: fs =>
    let result := evaluateFixture loadPromptVersion generate engine f
    if ¬ result.passed ∧ stopOnError then [result]
    else result :: runFixturesLoop loadPromptVersion generate engine stopOnError fs

/-- Run evaluation on a list of fixtures, as in function runEvaluation of
runner.ts.  The clock values (startedAt, completedAt, duration) come from
the ambient Date; the statistics are computed from the fixture results
actually collected.  The source's result literal carries no totalTokens,
averageLatency or totalLatency keys, so those fields are none. -/
def runEvaluation (fixtures : List EvaluationFixture)
    (loadPromptVersion : String → Except String String)
    (generate : String → Except String ProviderResult) (engine : RegexEngine)
    (stopOnError : Bool) (startedAt completedAt : Int) (duration : ℚ) :
    EvaluationRunResult :=
  let fixtureResults :=
    runFixturesLoop loadPromptVersion generate engine stopOnError fixtures
  let totalFixtures := fixtureResults.length
  let passedFixtures := (fixtureResults.filter (fun r => r.passed)).length
  let failedFixtures := totalFixtures - passedFixtures
  let passRate :=
    if totalFixtures > 0 then (passedFixtures : ℚ) / (totalFixtures : ℚ) else 0
  { startedAt := startedAt
    completedAt := completedAt
    duration := duration
    fixtureResults := fixtureResults
    totalFixtures := totalFixtures
    passedFixtures := passedFixtures
    failedFixtures := failedFixtures
    passRate := passRate
    totalTokens := none
    averageLatency := none
    totalLatency := none }

/-- Aggregated statistics across runs (interface AggregatedResults); the
date range holds the earliest and latest startedAt instants. -/
structure AggregatedResults where
  totalRuns : Nat
  totalFixtures : Nat
  totalPassed : Nat
  totalFailed : Nat
  overallPassRate : ℚ
  averagePassRate : ℚ
  totalTokens : Option TokenUsage
  averageLatency : Option ℚ
  totalDuration : ℚ
  averageDuration : ℚ
  runs : List EvaluationRunResult
  allFixtureResults : List FixtureResult
  dateRangeEarliest : Int
  dateRangeLatest : Int
deriving DecidableEq, Repr

/-- Aggregate results from multiple evaluation runs, as in function
aggregateResults of the aggregate module: an empty input throws; the overall
pass rate comes from the flattened fixture results, the average pass rate is
the mean of the per-run passRate fields, token and latency rollups only
include the runs reporting them, and the date range sorts the startedAt
instants ascending. -/
def aggregateResults (results : List EvaluationRunResult) :
    Except String AggregatedResults :=
  if results.length = 0 then
    Except.error "Cannot aggregate empty results array"
  else
    let allFixtureResults := results.flatMap (fun r => r.fixtureResults)
    let totalFixtures := allFixtureResults.length
    let totalPassed := (allFixtureResults.filter (fun r => r.passed)).length
    let totalFailed := totalFixtures - totalPassed
    let overallPassRate :=
      if totalFixtures > 0 then (totalPassed : ℚ) / (totalFixtures : ℚ) else 0
    let averagePassRate :=
      if results.length > 0 then
        (results.map (fun r => r.passRate)).sum / (results.length : ℚ)
      else 0
    let runsWithTokens := results.filter (fun r => r.totalTokens.isSome)
    let totalTokens : Option TokenUsage :=
      if runsWithTokens.length > 0 then
        some (runsWithTokens.foldl
          (fun acc r =>
            match r.totalTokens with
            | some t =>
              ⟨acc.input + t.input, acc.output + t.output, acc.total + t.total⟩
            | none => acc)
          ⟨0, 0, 0⟩)
      else none
    let runsWithLatency := results.filter (fun r => r.averageLatency.isSome)
    let averageLatency : Option ℚ :=
      if runsWithLatency.length > 0 then
        some ((runsWithLatency.map (fun r => r.averageLatency.getD 0)).sum /
          (runsWithLatency.length : ℚ))
      else none
    let totalDuration := (results.map (fun r => r.duration)).sum
    let averageDuration := totalDuration / (results.length : ℚ)
    let dates := (results.map (fun r => r.startedAt)).insertionSort (· ≤ ·)
    let earliest := dates.headD 0
    let latest := dates.getLastD 0
    Except.ok
      { totalRuns := results.length
        totalFixtures := totalFixtures
        totalPassed := totalPassed
        totalFailed := totalFailed
        overallPassRate := overallPassRate
        averagePassRate := averagePassRate
        totalTokens := totalTokens
        averageLatency := averageLatency
        totalDuration := totalDuration
        averageDuration := averageDuration
        runs := results
        allFixtureResults := allFixtureResults
        dateRangeEarliest := earliest
        dateRangeLatest := latest }

/-- A minimal fixture, for concrete witness runs. -/
def fixtureP : EvaluationFixture :=
  { prompt := "p", variableMap := [], expectations := [] }

/-- A passed fixture result, for concrete witness runs. -/
def frPassed : FixtureResult :=
  { fixture := fixtureP, renderedPrompt := "", output := none,
    expectationResults := [], passed := true, error := none,
    latency := none, tokens := none }

/-- A failed fixture result, for concrete witness runs. -/
def frFailed : FixtureResult :=
  { fixture := fixtureP, renderedPrompt := "", output := none,
    expectationResults := [], passed := false, error := none,
    latency := none, tokens := none }

/-- A concrete run with 4 of 5 fixtures passed and consistent counters. -/
def runA : EvaluationRunResult :=
  { startedAt := 0, completedAt := 1, duration := 1,
    fixtureResults := [frPassed, frPassed, frPassed, frPassed, frFailed],
    totalFixtures := 5, passedFixtures := 4, failedFixtures := 1,
    passRate := 4/5, totalTokens := none, averageLatency := none,
    totalLatency := none }

/-- A concrete run with 3 of 3 fixtures passed and consistent counters. -/
def runB : EvaluationRunResult :=
  { startedAt := 2, completedAt := 3, duration := 1,
    fixtureResults := [frPassed, frPassed, frPassed],
    totalFixtures := 3, passedFixtures := 3, failedFixtures := 0,
    passRate := 1, totalTokens := none, averageLatency := none,
    totalLatency := none }

/-- A prompt registry that resolves every reference to the template
"Hello" (concrete collaborator for witnesses). -/
def loadOk : String → Except String String := fun _ => Except.ok "Hello"

/-- A backend that reports output "out", latency 100 and token usage
(1, 2, 3) for every prompt (concrete collaborator for witnesses). -/
def genLat : String → Except String ProviderResult := fun _ =>
  Except.ok { output := "out", latency := 100,
              tokens := some { input := 1, output := 2, total := 3 } }

/-- A host regex engine that rejects every pattern (concrete collaborator;
the regex claims only exercise the compile-failure path). -/
def engineFail : RegexEngine := fun _ _ =>
  Except.error "Invalid regular expression: missing )"

end Evaluation

namespace JsonDiff

/-! Structural JSON diff (diffJson, diffArrays, diffObjects of
src/commands/eval.ts).  JSON-like values are modelled by the inductive
JValue; null and undefined are separate values, JS numbers are rationals.
The source functions return JsonDiffResult at every level and recurse
through the changes field; buildResult only repackages a changes list with
its counts.  Strict equality (the !== tests) is only ever applied when at
least one side is a primitive, where it coincides with primNe below. -/


inductive JValue where
  | vnull
  | vundef
  | vstr (s : String)
  | vnum (q : ℚ)
  | vbool (b : Bool)
  | varr (items : List JValue)
  | vobj (fields : List (String × JValue))

open JValue

def isPrimitive : JValue → Bool
  | vnull | vundef | vstr _ | vnum _ | vbool _ => true
  | _ => false

def primNe : JValue → JValue → Bool
  | vnull, vnull => false
  | vundef, vundef => false
  | vstr s, vstr t => decide (s ≠ t)
  | vnum p, vnum q => decide (p ≠ q)
  | vbool p, vbool q => decide (p ≠ q)
  | _, _ => true

inductive JsonChangeType where
  | added
  | removed
  | modified
deriving DecidableEq, Repr

structure JsonDiffChange where
  path : String
  type : JsonChangeType
  oldValue : Option JValue
  newValue : Option JValue

structure JsonDiffResult where
  changes : List JsonDiffChange
  addedCount : Nat
  removedCount : Nat
  modifiedCount : Nat
  hasChanges : Bool

def buildResult (changes : List JsonDiffChange) : JsonDiffResult :=
  { changes := changes
    addedCount := (changes.filter (fun c => c.type == JsonChangeType.added)).length
    removedCount := (changes.filter (fun c => c.type == JsonChangeType.removed)).length
    modifiedCount := (changes.filter (fun c => c.type == JsonChangeType.modified)).length
    hasChanges := changes.length > 0 }

def childPath (basePath seg : String) : String :=
  if basePath = "" then seg else basePath ++ "." ++ seg

def rootPath (basePath : String) : String :=
  if basePath = "" then "root" else basePath

def isAbsent : JValue → Bool
  | vnull | vundef => true
  | _ => false

def isUndef : JValue → Bool
  | vundef => true
  | _ => false

theorem sizeOf_lookup_lt {k : String} {v : JValue} :
    ∀ (fs : List (String × JValue)), fs.lookup k = some v → sizeOf v < sizeOf fs := by
  intro fs
  induction fs with
  | nil => simp [List.lookup]
  | cons p t ih =>
    obtain ⟨a, b⟩ := p
    simp only [List.lookup]
    by_cases h : k == a
    · simp only [h]
      intro hv
      cases hv
      simp
      omega
    · simp only [h]
      intro hv
      have := ih hv
      simp
      omega

mutual

def diffJson (oldObj newObj : JValue) (basePath : String) : JsonDiffResult :=
  if isAbsent oldObj then
    if ¬ isAbsent newObj then
      buildResult [⟨rootPath basePath, JsonChangeType.added, none, some newObj⟩]
    else
      buildResult []
  else if isAbsent newObj then
    buildResult [⟨rootPath basePath, JsonChangeType.removed, some oldObj, none⟩]
  else if isPrimitive oldObj || isPrimitive newObj then
    if primNe oldObj newObj then
      buildResult
        [⟨rootPath basePath, JsonChangeType.modified, some oldObj, some newObj⟩]
    else
      buildResult []
  else
    match oldObj, newObj with
    | varr oldArr, varr newArr => diffArrays oldArr newArr basePath
    | vobj oldFields, vobj newFields => diffObjects oldFields newFields basePath
    | _, _ =>
      buildResult
        [⟨rootPath basePath, JsonChangeType.modified, some oldObj, some newObj⟩]
termination_by (sizeOf oldObj + sizeOf newObj, 0)

def diffArrays (oldArr newArr : List JValue) (basePath : String) :
    JsonDiffResult :=
  buildResult (arrGo oldArr newArr basePath 0)
termination_by (sizeOf oldArr + sizeOf newArr + 1, 0)

def arrGo (oldArr newArr : List JValue) (basePath : String) (i : Nat) :
    List JsonDiffChange :=
  match oldArr, newArr with
  | [], [] => []
  | oldItem :: os, [] =>
    arrEntry oldItem vundef (childPath basePath (toString i)) ++
      arrGo os [] basePath (i + 1)
  | [], newItem :: ns =>
    arrEntry vundef newItem (childPath basePath (toString i)) ++
      arrGo [] ns basePath (i + 1)
  | oldItem :: os, newItem :: ns =>
    arrEntry oldItem newItem (childPath basePath (toString i)) ++
      arrGo os ns basePath (i + 1)
termination_by (sizeOf oldArr + sizeOf newArr, 2)

def arrEntry (oldItem newItem : JValue) (path : String) : List JsonDiffChange :=
  if isUndef oldItem && !isUndef newItem then
    [⟨path, JsonChangeType.added, none, some newItem⟩]
  else if !isUndef oldItem && isUndef newItem then
    [⟨path, JsonChangeType.removed, some oldItem, none⟩]
  else if !isUndef oldItem && !isUndef newItem then
    if isPrimitive oldItem && isPrimitive newItem then
      if primNe oldItem newItem then
        [⟨path, JsonChangeType.modified, some oldItem, some newItem⟩]
      else []
    else
      (diffJson oldItem newItem path).changes
  else []
termination_by (sizeOf oldItem + sizeOf newItem, 1)

def diffObjects (oldFields newFields : List (String × JValue))
    (basePath : String) : JsonDiffResult :=
  buildResult
    (objGo oldFields newFields basePath
      (dedupFirst [] (oldFields.map Prod.fst ++ newFields.map Prod.fst)))
termination_by (sizeOf oldFields + sizeOf newFields + 1, 0)

def objGo (oldFields newFields : List (String × JValue)) (basePath : String) :
    List String → List JsonDiffChange
  | [] => []
  | key :: keys =>
    (match h1 : oldFields.lookup key, h2 : newFields.lookup key with
     | none, some newValue =>
       [⟨childPath basePath key, JsonChangeType.added, none, some newValue⟩]
     | some oldValue, none =>
       [⟨childPath basePath key, JsonChangeType.removed, some oldValue, none⟩]
     | some oldValue, some newValue =>
       if isPrimitive oldValue && isPrimitive newValue then
         if primNe oldValue newValue then
           [⟨childPath basePath key, JsonChangeType.modified, some oldValue,
             some newValue⟩]
         else []
       else
         (diffJson oldValue newValue (childPath basePath key)).changes
     | none, none => []) ++ objGo oldFields newFields basePath keys
termination_by keys => (sizeOf oldFields + sizeOf newFields, keys.length)
decreasing_by
  all_goals
    first
    | decreasing_tactic
    | (simp_wf
       have ho := sizeOf_lookup_lt oldFields h1
       have hn := sizeOf_lookup_lt newFields h2
       apply Prod.Lex.left
       omega)

end

/-- The per-key behaviour of object diffing as the specification states it:
a key only in the new object yields one added change at the key's path, a
key only in the old object one removed change, a shared key with both
values scalar one modified change when unequal and none when equal, and
otherwise (both values non-scalar, or a scalar facing a container, which the
specification leaves to the recursion) the recursive diff's changes. -/
def specObjEntry (oldFields newFields : List (String × JValue))
    (basePath : String) (key : String) : List JsonDiffChange :=
  match oldFields.lookup key, newFields.lookup key with
  | none, some newValue =>
    [⟨childPath basePath key, JsonChangeType.added, none, some newValue⟩]
  | some oldValue, none =>
    [⟨childPath basePath key, JsonChangeType.removed, some oldValue, none⟩]
  | some oldValue, some newValue =>
    if isPrimitive oldValue && isPrimitive newValue then
      if primNe oldValue newValue then
        [⟨childPath basePath key, JsonChangeType.modified, some oldValue,
          some newValue⟩]
      else []
    else
      (diffJson oldValue newValue (childPath basePath key)).changes
  | none, none => []

end JsonDiff

namespace TextDiff

theorem ed_self (w : List String) : ed w w = 0 := by
  induction w with
  | nil => simp [ed]
  | cons x xs ih => simp [ed, ih]

theorem ed_eq_zero_length : ∀ (a b : List String), ed a b = 0 → a.length = b.length := by
  intro a b
  induction a, b using ed.induct with
  | case1 rn =>
    intro h
    simp [ed] at h
    simp [h]
  | case2 ro h' =>
    cases ro with
    | nil => exact absurd rfl h'
    | cons x ro' =>
      intro h
      simp [ed] at h
  | case3 ro y rn ih =>
    intro h
    simp [ed] at h
    simp [ih h]
  | case4 x ro y rn hne ih1 ih2 ih3 =>
    intro h
    simp [ed, hne] at h

theorem ed_cons_self (c : String) (w : List String) : ed (c :: w) w = 1 := by
  induction w with
  | nil => simp [ed]
  | cons h t ih =>
    by_cases hc : c = h
    · subst hc
      simpa [ed] using ih
    · have hself : ed (h :: t) (h :: t) = 0 := ed_self _
      simp [ed, hc, hself]

theorem ed_self_cons (c : String) (w : List String) : ed w (c :: w) = 1 := by
  induction w with
  | nil => simp [ed]
  | cons h t ih =>
    by_cases hc : h = c
    · subst hc
      simpa [ed] using ih
    · have hself : ed (h :: t) (h :: t) = 0 := ed_self _
      simp [ed, hc, hself]

theorem bt_filterMap_oldOf (ro : List (Nat × String)) (rn : List String) :
    (bt ro rn).filterMap oldOf = ro.reverse := by
  induction ro, rn using bt.induct with
  | case1 => simp [bt]
  | case2 y rn ih => simp [bt, List.filterMap_append, ih, oldOf]
  | case3 i x ro ih => simp [bt, List.filterMap_append, ih, oldOf]
  | case4 i ro y rn ih =>
    simp [bt, List.filterMap_append, ih, oldOf]
  | case5 i x ro y rn hne hle ih =>
    simp [bt, hne, hle, List.filterMap_append, ih, oldOf]
  | case6 i x ro y rn hne hle ih =>
    simp [bt, hne, hle, List.filterMap_append, ih, oldOf]

theorem bt_filterMap_newOf (ro : List (Nat × String)) (rn : List String) :
    (bt ro rn).filterMap newOf = rn.reverse := by
  induction ro, rn using bt.induct with
  | case1 => simp [bt]
  | case2 y rn ih => simp [bt, List.filterMap_append, ih, newOf]
  | case3 i x ro ih => simp [bt, List.filterMap_append, ih, newOf]
  | case4 i ro y rn ih =>
    simp [bt, List.filterMap_append, ih, newOf]
  | case5 i x ro y rn hne hle ih =>
    simp [bt, hne, hle, List.filterMap_append, ih, newOf]
  | case6 i x ro y rn hne hle ih =>
    simp [bt, hne, hle, List.filterMap_append, ih, newOf]

theorem counts_oldOf (l : List DiffLine) :
    (l.filter (fun d => d.type == DiffType.removed)).length +
      (l.filter (fun d => d.type == DiffType.unchanged)).length =
    (l.filterMap oldOf).length := by
  induction l with
  | nil => simp
  | cons d t ih =>
    cases h : d.type <;>
      simp [List.filter_cons, List.filterMap_cons, oldOf, h] <;> omega

theorem counts_newOf (l : List DiffLine) :
    (l.filter (fun d => d.type == DiffType.added)).length +
      (l.filter (fun d => d.type == DiffType.unchanged)).length =
    (l.filterMap newOf).length := by
  induction l with
  | nil => simp
  | cons d t ih =>
    cases h : d.type <;>
      simp [List.filter_cons, List.filterMap_cons, newOf, h] <;> omega

theorem computeLineDiff_filterMap_oldOf (oldLines newLines : List String) :
    (computeLineDiff oldLines newLines).filterMap oldOf = numberLines oldLines := by
  simp [computeLineDiff, bt_filterMap_oldOf]

theorem computeLineDiff_filterMap_newOf (oldLines newLines : List String) :
    (computeLineDiff oldLines newLines).filterMap newOf = newLines := by
  simp [computeLineDiff, bt_filterMap_newOf]

theorem enumFrom_map_add (ws : List String) :
    ∀ n, (ws.enumFrom n).map (fun p => (p.1 + 1, p.2)) = numberFrom (n + 1) ws := by
  induction ws with
  | nil => intro n; simp [numberFrom]
  | cons w ws ih =>
    intro n
    simp [List.enumFrom, numberFrom, ih]

theorem numberLines_eq_numberFrom (ws : List String) :
    numberLines ws = numberFrom 1 ws := by
  simpa [numberLines, List.enum] using enumFrom_map_add ws 0

theorem numberFrom_append (n : Nat) (a b : List String) :
    numberFrom n (a ++ b) = numberFrom n a ++ numberFrom (n + a.length) b := by
  induction a generalizing n with
  | nil => simp [numberFrom]
  | cons x xs ih =>
    simp [numberFrom, ih]
    ring_nf

theorem numberFrom_map_snd (n : Nat) (ws : List String) :
    (numberFrom n ws).map Prod.snd = ws := by
  induction ws generalizing n with
  | nil => simp [numberFrom]
  | cons w ws ih => simp [numberFrom, ih]

/-- When the heads of the two reversed lists agree pairwise, the backtracking
greedily declares them unchanged. -/
theorem bt_append_common (p : List (Nat × String)) (ro : List (Nat × String))
    (rn : List String) :
    bt (p ++ ro) (p.map Prod.snd ++ rn) = bt ro rn ++ p.reverse.map unchOf := by
  induction p with
  | nil => simp
  | cons q p ih =>
    obtain ⟨i, x⟩ := q
    simp only [List.cons_append, List.map_cons]
    simp [bt, ih, unchOf]

theorem bt_selfPairs (p : List (Nat × String)) :
    bt p (p.map Prod.snd) = p.reverse.map unchOf := by
  have h := bt_append_common p [] []
  simpa [bt] using h

/-- Backtracking from a state where the old side has exactly one extra line x
(possibly duplicated among the preceding lines) emits exactly one removed
line, with content x, among unchanged lines. -/
theorem bt_run (pu : List (Nat × String)) (i : Nat) (x : String) :
    ∃ (m : Nat) (l₁ l₂ : List DiffLine),
      bt ((i, x) :: pu) (pu.map Prod.snd) =
        l₁ ++ ⟨DiffType.removed, x, some m⟩ :: l₂ ∧
      (∀ e ∈ l₁, e.type = DiffType.unchanged) ∧
      (∀ e ∈ l₂, e.type = DiffType.unchanged) := by
  induction pu generalizing i with
  | nil =>
    refine ⟨i, [], [], ?_, by simp, by simp⟩
    simp [bt]
  | cons q pu ih =>
    obtain ⟨j, h⟩ := q
    by_cases hx : x = h
    · subst hx
      obtain ⟨m, l₁, l₂, heq, h₁, h₂⟩ := ih j
      refine ⟨m, l₁, l₂ ++ [⟨DiffType.unchanged, x, some i⟩], ?_, h₁, ?_⟩
      · rw [List.map_cons, bt.eq_4, if_pos rfl, heq]
        simp
      · intro e he
        rcases List.mem_append.mp he with he | he
        · exact h₂ e he
        · rw [List.mem_singleton] at he
          subst he
          rfl
    · have hlen : ed (x :: h :: pu.map Prod.snd) (pu.map Prod.snd) ≠ 0 := by
        intro h0
        have := ed_eq_zero_length _ _ h0
        simp at this
        omega
      have hself : ed (h :: pu.map Prod.snd) (h :: pu.map Prod.snd) = 0 :=
        ed_self _
      have hcond : ¬ ed (x :: ((j, h) :: pu).map Prod.snd) (pu.map Prod.snd) ≤
          ed (((j, h) :: pu).map Prod.snd) (h :: pu.map Prod.snd) := by
        simp only [List.map_cons, hself]
        omega
      simp only [List.map_cons] at hcond
      refine ⟨i, ((j, h) :: pu).reverse.map unchOf, [], ?_, ?_, by simp⟩
      · simp only [List.map_cons]
        rw [bt.eq_4, if_neg hx]
        simp only [List.map_cons]
        rw [if_neg hcond]
        have hsp := bt_selfPairs ((j, h) :: pu)
        simp only [List.map_cons] at hsp
        rw [hsp]
      · intro e he
        simp only [List.mem_map] at he
        obtain ⟨p, _, rfl⟩ := he
        rfl

/-- A pure single-line substitution produces exactly one removed line (with
the old content) and, later in the list, exactly one added line (with the new
content); every other emitted line is unchanged. -/
theorem computeLineDiff_subst (u v : List String) (x y : String) (hxy : x ≠ y) :
    ∃ (m : Nat) (l₁ l₂ l₃ : List DiffLine),
      computeLineDiff (u ++ x :: v) (u ++ y :: v) =
        l₁ ++ ⟨DiffType.removed, x, some m⟩ ::
          (l₂ ++ ⟨DiffType.added, y, none⟩ :: l₃) ∧
      (∀ e ∈ l₁, e.type = DiffType.unchanged) ∧
      (∀ e ∈ l₂, e.type = DiffType.unchanged) ∧
      (∀ e ∈ l₃, e.type = DiffType.unchanged) := by
  have hnum : (numberLines (u ++ x :: v)).reverse =
      (numberFrom (1 + u.length + 1) v).reverse ++
        (1 + u.length, x) :: (numberFrom 1 u).reverse := by
    rw [numberLines_eq_numberFrom, numberFrom_append]
    simp [numberFrom]
  have hrev : (u ++ y :: v).reverse = v.reverse ++ y :: u.reverse := by
    simp
  have hmapsndv : ((numberFrom (1 + u.length + 1) v).reverse).map Prod.snd =
      v.reverse := by
    simp [List.map_reverse, numberFrom_map_snd]
  have hmapsndu : ((numberFrom 1 u).reverse).map Prod.snd = u.reverse := by
    simp [List.map_reverse, numberFrom_map_snd]
  obtain ⟨m, l₁, l₂, hrun, h₁, h₂⟩ :=
    bt_run ((numberFrom 1 u).reverse) (1 + u.length) x
  rw [hmapsndu] at hrun
  refine ⟨m, l₁, l₂, (numberFrom (1 + u.length + 1) v).map unchOf, ?_, h₁, h₂, ?_⟩
  · have hcond : ed (x :: ((numberFrom 1 u).reverse).map Prod.snd) u.reverse ≤
        ed (((numberFrom 1 u).reverse).map Prod.snd) (y :: u.reverse) := by
      rw [hmapsndu, ed_cons_self, ed_self_cons]
    have hstep : bt ((1 + u.length, x) :: (numberFrom 1 u).reverse)
        (y :: u.reverse) =
        (l₁ ++ ⟨DiffType.removed, x, some m⟩ :: l₂) ++
          [⟨DiffType.added, y, none⟩] := by
      rw [bt.eq_4, if_neg hxy, if_pos hcond, hrun]
    have hcommon := bt_append_common ((numberFrom (1 + u.length + 1) v).reverse)
      ((1 + u.length, x) :: (numberFrom 1 u).reverse) (y :: u.reverse)
    rw [hmapsndv] at hcommon
    simp only [computeLineDiff, hnum, hrev, hcommon, hstep, List.reverse_reverse]
    simp [List.append_assoc]
  · intro e he
    simp only [List.mem_map] at he
    obtain ⟨p, _, rfl⟩ := he
    rfl

end TextDiff

namespace TextDiff

theorem numberFrom_length (n : Nat) (ws : List String) :
    (numberFrom n ws).length = ws.length := by
  induction ws generalizing n with
  | nil => simp [numberFrom]
  | cons w ws ih => simp [numberFrom, ih]

theorem diffText_lines (a b : String) :
    (diffText a b).lines = computeLineDiff (textLines a) (textLines b) := rfl

theorem diffText_addedCount (a b : String) :
    (diffText a b).addedCount =
      ((computeLineDiff (textLines a) (textLines b)).filter
        (fun l => l.type == DiffType.added)).length := rfl

theorem diffText_removedCount (a b : String) :
    (diffText a b).removedCount =
      ((computeLineDiff (textLines a) (textLines b)).filter
        (fun l => l.type == DiffType.removed)).length := rfl

theorem diffText_unchangedCount (a b : String) :
    (diffText a b).unchangedCount =
      ((computeLineDiff (textLines a) (textLines b)).filter
        (fun l => l.type == DiffType.unchanged)).length := rfl

theorem diffText_counts (a b : String) :
    (diffText a b).addedCount + (diffText a b).unchangedCount =
      (textLines b).length ∧
    (diffText a b).removedCount + (diffText a b).unchangedCount =
      (textLines a).length := by
  have hn := counts_newOf (computeLineDiff (textLines a) (textLines b))
  have ho := counts_oldOf (computeLineDiff (textLines a) (textLines b))
  rw [computeLineDiff_filterMap_newOf] at hn
  rw [computeLineDiff_filterMap_oldOf] at ho
  rw [numberLines_eq_numberFrom, numberFrom_length] at ho
  constructor
  · rw [diffText_addedCount, diffText_unchangedCount]
    exact hn
  · rw [diffText_removedCount, diffText_unchangedCount]
    exact ho

end TextDiff

open TextDiff in
/-- C1, Scenario A evaluated concretely: diffText on the two-line texts
returns unchanged Hello (line 1), removed World (line 2), added Universe,
with addedCount 1, removedCount 1. -/
theorem scenarioA :
    diffText "Hello\nWorld" "Hello\nUniverse" =
      { lines := [⟨DiffType.unchanged, "Hello", some 1⟩,
                  ⟨DiffType.removed, "World", some 2⟩,
                  ⟨DiffType.added, "Universe", none⟩],
        addedCount := 1, removedCount := 1, unchangedCount := 1,
        hasChanges := true } := by
  simp [diffText, splitLines, splitLinesCore, computeLineDiff, numberLines,
    List.enum, List.enumFrom, bt, ed]

open TextDiff in
/-- C1 (counterexample): the texts "a\na" and "a\nb" are a pure single-line
substitution (line 2, a to b), yet the diff renders it as removed line 1,
unchanged line 2, added line: the removed line is NOT immediately followed
by the added line (no adjacent removed-added pair exists in the output). -/
theorem c1_counterexample :
    textLines "a\na" = ["a", "a"] ∧
    textLines "a\nb" = ["a", "b"] ∧
    (diffText "a\na" "a\nb").lines =
      [⟨DiffType.removed, "a", some 1⟩,
       ⟨DiffType.unchanged, "a", some 2⟩,
       ⟨DiffType.added, "b", none⟩] ∧
    adjRemovedAdded (diffText "a\na" "a\nb").lines = false := by
  have h1 : textLines "a\na" = ["a", "a"] := by
    simp [textLines, splitLines, splitLinesCore]
  have h2 : textLines "a\nb" = ["a", "b"] := by
    simp [textLines, splitLines, splitLinesCore]
  have h3 : (diffText "a\na" "a\nb").lines =
      [⟨DiffType.removed, "a", some 1⟩,
       ⟨DiffType.unchanged, "a", some 2⟩,
       ⟨DiffType.added, "b", none⟩] := by
    simp [diffText, splitLines, splitLinesCore, computeLineDiff, numberLines,
      List.enum, List.enumFrom, bt, ed]
  refine ⟨h1, h2, h3, ?_⟩
  rw [h3]
  decide

open TextDiff in
/-- C1 (amended): Scenario A holds exactly as stated; in general a pure
single-line substitution (x replaced by y at one position) yields exactly
one removed line (content x) and exactly one added line (content y), the
removed line preceding the added line, all other lines unchanged -- but the
two need not be adjacent (see the counterexample, where the replaced line
duplicates an adjacent context line). -/
theorem c1_theorem :
    (diffText "Hello\nWorld" "Hello\nUniverse" =
      { lines := [⟨DiffType.unchanged, "Hello", some 1⟩,
                  ⟨DiffType.removed, "World", some 2⟩,
                  ⟨DiffType.added, "Universe", none⟩],
        addedCount := 1, removedCount := 1, unchangedCount := 1,
        hasChanges := true }) ∧
    (∀ (u v : List String) (x y : String), x ≠ y →
      ∃ (m : Nat) (l₁ l₂ l₃ : List DiffLine),
        computeLineDiff (u ++ x :: v) (u ++ y :: v) =
          l₁ ++ ⟨DiffType.removed, x, some m⟩ ::
            (l₂ ++ ⟨DiffType.added, y, none⟩ :: l₃) ∧
        (∀ e ∈ l₁, e.type = DiffType.unchanged) ∧
        (∀ e ∈ l₂, e.type = DiffType.unchanged) ∧
        (∀ e ∈ l₃, e.type = DiffType.unchanged)) :=
  ⟨scenarioA, computeLineDiff_subst⟩

open TextDiff in
/-- C1 (witness): the amended substitution clause applied at a concrete
input. -/
theorem c1_witness :
    ("a" : String) ≠ "b" ∧
    (∃ (m : Nat) (l₁ l₂ l₃ : List DiffLine),
      computeLineDiff (["q"] ++ "a" :: []) (["q"] ++ "b" :: []) =
        l₁ ++ ⟨DiffType.removed, "a", some m⟩ ::
          (l₂ ++ ⟨DiffType.added, "b", none⟩ :: l₃) ∧
      (∀ e ∈ l₁, e.type = DiffType.unchanged) ∧
      (∀ e ∈ l₂, e.type = DiffType.unchanged) ∧
      (∀ e ∈ l₃, e.type = DiffType.unchanged)) :=
  ⟨by decide, c1_theorem.2 ["q"] [] "a" "b" (by decide)⟩

open TextDiff in
/-- C5 (counterexample): for a = "a\nb" and b = "c\nc\na" the claim's
equality fails: diffText a b has addedCount 3 while diffText b a has
removedCount 2. -/
theorem c5_counterexample :
    (diffText "a\nb" "c\nc\na").addedCount = 3 ∧
    (diffText "c\nc\na" "a\nb").removedCount = 2 ∧
    (diffText "a\nb" "c\nc\na").addedCount ≠
      (diffText "c\nc\na" "a\nb").removedCount := by
  have h1 : (diffText "a\nb" "c\nc\na").addedCount = 3 := by
    simp [diffText, splitLines, splitLinesCore, computeLineDiff, numberLines,
      List.enum, List.enumFrom, bt, ed]
  have h2 : (diffText "c\nc\na" "a\nb").removedCount = 2 := by
    simp [diffText, splitLines, splitLinesCore, computeLineDiff, numberLines,
      List.enum, List.enumFrom, bt, ed]
  exact ⟨h1, h2, by rw [h1, h2]; decide⟩

open TextDiff in
/-- C5 (amended): the symmetry of counts holds once each side's unchanged
count is added: addedCount(a,b) + unchangedCount(a,b) =
removedCount(b,a) + unchangedCount(b,a) (both equal the number of lines of
b), and symmetrically.  The raw equality of the claim can fail because the
backtracking finds different numbers of unchanged lines in the two
directions. -/
theorem c5_theorem (a b : String) :
    (diffText a b).addedCount + (diffText a b).unchangedCount =
      (diffText b a).removedCount + (diffText b a).unchangedCount ∧
    (diffText a b).removedCount + (diffText a b).unchangedCount =
      (diffText b a).addedCount + (diffText b a).unchangedCount := by
  have hab := diffText_counts a b
  have hba := diffText_counts b a
  constructor
  · rw [hab.1, hba.2]
  · rw [hab.2, hba.1]

open TextDiff in
/-- C10: the diff reconstructs both inputs.  The removed/unchanged
subsequence, projected to (lineNumber, content), is exactly the old text's
numbered line list; the added/unchanged subsequence is exactly the new
text's line list; hence removedCount + unchangedCount is the old line count
and addedCount + unchangedCount the new line count.  Moreover the
backtracking loop guard always enables one of the three branches (the
match, insertion and deletion conditions of the source), so the fallback
break is unreachable. -/
theorem c10_theorem :
    (∀ oldText newText : String,
      ((diffText oldText newText).lines.filterMap oldOf =
        numberLines (textLines oldText)) ∧
      ((diffText oldText newText).lines.filterMap newOf =
        textLines newText) ∧
      (diffText oldText newText).removedCount +
        (diffText oldText newText).unchangedCount =
        (textLines oldText).length ∧
      (diffText oldText newText).addedCount +
        (diffText oldText newText).unchangedCount =
        (textLines newText).length) ∧
    (∀ (ro : List (Nat × String)) (rn : List String), ro ≠ [] ∨ rn ≠ [] →
      (∃ i x ro' rn', ro = (i, x) :: ro' ∧ rn = x :: rn') ∨
      (rn ≠ [] ∧ (ro = [] ∨
        ed (ro.map Prod.snd) rn.tail ≤ ed (ro.tail.map Prod.snd) rn)) ∨
      ro ≠ []) := by
  constructor
  · intro oldText newText
    refine ⟨?_, ?_, (diffText_counts oldText newText).2,
      (diffText_counts oldText newText).1⟩
    · rw [diffText_lines, computeLineDiff_filterMap_oldOf]
    · rw [diffText_lines, computeLineDiff_filterMap_newOf]
  · intro ro rn hguard
    cases ro with
    | nil =>
      rcases hguard with h | h
      · exact absurd rfl h
      · exact Or.inr (Or.inl ⟨h, Or.inl rfl⟩)
    | cons p ro' => exact Or.inr (Or.inr (by simp))

open TextDiff in
/-- C10 (witness): the reconstruction equations at a concrete input, and the
branch-exhaustiveness clause at a concrete loop state. -/
theorem c10_witness :
    ((diffText "a\nb" "b").lines.filterMap oldOf =
      numberLines (textLines "a\nb")) ∧
    (([] : List (Nat × String)) ≠ [] ∨ (["a"] : List String) ≠ []) ∧
    ((∃ i x ro' rn', ([] : List (Nat × String)) = (i, x) :: ro' ∧
        (["a"] : List String) = x :: rn') ∨
      ((["a"] : List String) ≠ [] ∧ (([] : List (Nat × String)) = [] ∨
        ed (([] : List (Nat × String)).map Prod.snd) (["a"] : List String).tail ≤
          ed (([] : List (Nat × String)).tail.map Prod.snd) ["a"])) ∨
      ([] : List (Nat × String)) ≠ []) :=
  ⟨(c10_theorem.1 "a\nb" "b").1, Or.inr (by decide),
    c10_theorem.2 [] ["a"] (Or.inr (by decide))⟩

namespace Evaluation

theorem length_flatMap_fixtures (rs : List EvaluationRunResult) :
    (rs.flatMap (fun r => r.fixtureResults)).length =
      (rs.map (fun r => r.fixtureResults.length)).sum := by
  induction rs with
  | nil => simp
  | cons r t ih => simp [ih]

theorem length_filter_flatMap_fixtures (rs : List EvaluationRunResult) :
    ((rs.flatMap (fun r => r.fixtureResults)).filter
      (fun fr => fr.passed)).length =
      (rs.map (fun r =>
        (r.fixtureResults.filter (fun fr => fr.passed)).length)).sum := by
  induction rs with
  | nil => simp
  | cons r t ih => simp [ih]

end Evaluation

open Evaluation in
/-- C8: aggregating an empty list of runs fails with the explicit error of
the source, and every non-empty list aggregates to a result. -/
theorem c8_theorem :
    aggregateResults ([] : List EvaluationRunResult) =
      Except.error "Cannot aggregate empty results array" ∧
    ∀ rs : List EvaluationRunResult, rs ≠ [] →
      ∃ agg, aggregateResults rs = Except.ok agg := by
  constructor
  · rfl
  · intro rs hrs
    have hlen : ¬ rs.length = 0 := by
      simpa [List.length_eq_zero] using hrs
    unfold aggregateResults
    rw [if_neg hlen]
    exact ⟨_, rfl⟩

open Evaluation in
/-- C8 (witness): a concrete non-empty list aggregates to a result. -/
theorem c8_witness :
    ([runA] : List EvaluationRunResult) ≠ [] ∧
    ∃ agg, aggregateResults [runA] = Except.ok agg :=
  ⟨by simp, c8_theorem.2 [runA] (by simp)⟩

open Evaluation in
/-- C2: for two runs whose fixture results agree with their counters, one 4
of 5 passed and one 3 of 3 passed, aggregation returns overallPassRate 7/8
and averagePassRate 9/10, which differ; in general the overall rate divides
the summed passed count by the summed fixture count while the average rate
is the arithmetic mean of the stored per-run passRate fields. -/
theorem c2_theorem :
    (∀ r1 r2 : EvaluationRunResult,
      r1.fixtureResults.length = 5 →
      (r1.fixtureResults.filter (fun fr => fr.passed)).length = 4 →
      r1.passRate = 4/5 →
      r2.fixtureResults.length = 3 →
      (r2.fixtureResults.filter (fun fr => fr.passed)).length = 3 →
      r2.passRate = 1 →
      ∃ agg, aggregateResults [r1, r2] = Except.ok agg ∧
        agg.overallPassRate = 7/8 ∧ agg.averagePassRate = 9/10 ∧
        agg.overallPassRate ≠ agg.averagePassRate) ∧
    (∀ rs : List EvaluationRunResult, rs ≠ [] →
      ∃ agg, aggregateResults rs = Except.ok agg ∧
        agg.overallPassRate =
          (if 0 < (rs.map (fun r => r.fixtureResults.length)).sum then
            (Nat.cast ((rs.map (fun r =>
              (r.fixtureResults.filter (fun fr => fr.passed)).length)).sum) : ℚ) /
              (Nat.cast ((rs.map (fun r => r.fixtureResults.length)).sum) : ℚ)
          else 0) ∧
        agg.averagePassRate =
          (rs.map (fun r => r.passRate)).sum / (rs.length : ℚ)) := by
  have general : ∀ rs : List EvaluationRunResult, rs ≠ [] →
      ∃ agg, aggregateResults rs = Except.ok agg ∧
        agg.overallPassRate =
          (if 0 < (rs.map (fun r => r.fixtureResults.length)).sum then
            (Nat.cast ((rs.map (fun r =>
              (r.fixtureResults.filter (fun fr => fr.passed)).length)).sum) : ℚ) /
              (Nat.cast ((rs.map (fun r => r.fixtureResults.length)).sum) : ℚ)
          else 0) ∧
        agg.averagePassRate =
          (rs.map (fun r => r.passRate)).sum / (rs.length : ℚ) := by
    intro rs hrs
    have hlen : ¬ rs.length = 0 := by
      simpa [List.length_eq_zero] using hrs
    refine ⟨_, by unfold aggregateResults; rw [if_neg hlen], ?_, ?_⟩
    · show (if 0 < (rs.flatMap (fun r => r.fixtureResults)).length then
          (((rs.flatMap (fun r => r.fixtureResults)).filter
            (fun fr => fr.passed)).length : ℚ) /
            ((rs.flatMap (fun r => r.fixtureResults)).length : ℚ)
        else 0) = _
      rw [length_flatMap_fixtures, length_filter_flatMap_fixtures]
    · show (if 0 < rs.length then
          (rs.map (fun r => r.passRate)).sum / (rs.length : ℚ) else 0) = _
      rw [if_pos (by omega)]
  refine ⟨?_, general⟩
  intro r1 r2 h1len h1pass h1rate h2len h2pass h2rate
  obtain ⟨agg, hagg, hover, havg⟩ := general [r1, r2] (by simp)
  refine ⟨agg, hagg, ?_, ?_, ?_⟩
  · rw [hover]
    simp [h1len, h1pass, h2len, h2pass]
    try norm_num
  · rw [havg]
    simp [h1rate, h2rate]
    try norm_num
  · rw [hover, havg]
    simp [h1len, h1pass, h2len, h2pass, h1rate, h2rate]
    try norm_num

open Evaluation in
/-- C2 (witness): the aggregation computed on two concrete consistent runs. -/
theorem c2_witness :
    runA.fixtureResults.length = 5 ∧
    (runA.fixtureResults.filter (fun fr => fr.passed)).length = 4 ∧
    runA.passRate = 4/5 ∧
    runB.fixtureResults.length = 3 ∧
    (runB.fixtureResults.filter (fun fr => fr.passed)).length = 3 ∧
    runB.passRate = 1 ∧
    ∃ agg, aggregateResults [runA, runB] = Except.ok agg ∧
      agg.overallPassRate = 7/8 ∧ agg.averagePassRate = 9/10 ∧
      agg.overallPassRate ≠ agg.averagePassRate :=
  ⟨rfl, rfl, rfl, rfl, rfl, rfl,
    c2_theorem.1 runA runB rfl rfl rfl rfl rfl rfl⟩

open Evaluation in
/-- C3 (code bug): the runner never propagates backend-reported latency or
token usage.  For every registry, backend, engine and fixture the
FixtureResult built by evaluateFixture has latency = none and tokens = none
(the source object literals carry no such keys), and the RunResult built by
runEvaluation carries no totalTokens, averageLatency or totalLatency; in
particular this holds at a concrete fixture whose backend call succeeds and
reports latency 100 and tokens (1, 2, 3), where the runner's own test suite
(runner.test.ts, "should capture latency and token usage") expects all five
fields to be defined. -/
theorem c3_theorem :
    (∀ (loadPromptVersion : String → Except String String)
        (generate : String → Except String ProviderResult)
        (engine : RegexEngine) (fixture : EvaluationFixture),
      (evaluateFixture loadPromptVersion generate engine fixture).latency =
        none ∧
      (evaluateFixture loadPromptVersion generate engine fixture).tokens =
        none) ∧
    (∀ (fixtures : List EvaluationFixture)
        (loadPromptVersion : String → Except String String)
        (generate : String → Except String ProviderResult)
        (engine : RegexEngine) (stopOnError : Bool)
        (startedAt completedAt : Int) (duration : ℚ),
      (runEvaluation fixtures loadPromptVersion generate engine stopOnError
        startedAt completedAt duration).totalTokens = none ∧
      (runEvaluation fixtures loadPromptVersion generate engine stopOnError
        startedAt completedAt duration).averageLatency = none ∧
      (runEvaluation fixtures loadPromptVersion generate engine stopOnError
        startedAt completedAt duration).totalLatency = none) ∧
    (genLat "Hello" =
      Except.ok { output := "out", latency := 100,
                  tokens := some { input := 1, output := 2, total := 3 } } ∧
     (evaluateFixture loadOk genLat engineFail fixtureP).error = none ∧
     (evaluateFixture loadOk genLat engineFail fixtureP).output = some "out" ∧
     (evaluateFixture loadOk genLat engineFail fixtureP).passed = true ∧
     (evaluateFixture loadOk genLat engineFail fixtureP).latency = none ∧
     (evaluateFixture loadOk genLat engineFail fixtureP).tokens = none) := by
  refine ⟨?_, ?_, ?_⟩
  · intro loadPromptVersion generate engine fixture
    unfold evaluateFixture
    constructor <;> (split <;> rfl)
  · intro fixtures loadPromptVersion generate engine stopOnError s c d
    exact ⟨rfl, rfl, rfl⟩
  · have heval : evaluateFixture loadOk genLat engineFail fixtureP =
        { fixture := fixtureP, renderedPrompt := "Hello",
          output := some "out", expectationResults := [], passed := true,
          error := none, latency := none, tokens := none } := by
      simp [evaluateFixture, loadOk, genLat, fixtureP, renderTemplate,
        extractVariables, tokenize, dedupFirst, renderToks, isWordChar,
        evaluateExpectations, Except.map, bind, Except.bind]
    refine ⟨rfl, ?_, ?_, ?_, ?_, ?_⟩ <;> rw [heval]

open Evaluation in
/-- C4 (counterexample): an invalid regex pattern does yield a failed,
non-throwing result with an explanatory message, but its details field is
populated (with the pattern and the error text), not absent as the claim
states. -/
theorem c4_counterexample :
    (evaluateRegex engineFail "hello" "(" none).passed = false ∧
    (evaluateRegex engineFail "hello" "(" none).error =
      some "Invalid regex pattern: Invalid regular expression: missing )" ∧
    (evaluateRegex engineFail "hello" "(" none).details ≠ none := by
  refine ⟨rfl, rfl, ?_⟩
  simp [evaluateRegex, engineFail]

open Evaluation in
/-- C4 (amended): for every host engine, output and regex expectation whose
pattern the engine rejects, evaluation does not throw: it returns an
ExpectationResult with passed = false, the explanatory message "Invalid
regex pattern: ..." and details recording the pattern and the error text
(details are present, not absent). -/
theorem c4_theorem (engine : RegexEngine) (output value : String)
    (flagsOpt : Option String) (err : String)
    (h : engine value (flagsOpt.getD "") = Except.error err) :
    evaluateExpectation engine output (Expectation.regex value flagsOpt) =
      { expectation := Expectation.regex value flagsOpt
        passed := false
        error := some ("Invalid regex pattern: " ++ err)
        details := some (Details.regexErrorDetails value err) } := by
  simp only [evaluateExpectation, evaluateRegex]
  rw [h]

open Evaluation in
/-- C4 (witness): the amended statement applied at a concrete engine,
output and invalid pattern. -/
theorem c4_witness :
    engineFail "(" ((none : Option String).getD "") =
      Except.error "Invalid regular expression: missing )" ∧
    evaluateExpectation engineFail "hello" (Expectation.regex "(" none) =
      { expectation := Expectation.regex "(" none
        passed := false
        error := some ("Invalid regex pattern: " ++
          "Invalid regular expression: missing )")
        details := some (Details.regexErrorDetails "("
          "Invalid regular expression: missing )") } :=
  ⟨rfl, c4_theorem engineFail "hello" "(" none
    "Invalid regular expression: missing )" rfl⟩

theorem dedupFirst_nodup :
    ∀ (xs seen : List String), xs.Nodup →
      dedupFirst seen xs = xs.filter (fun k => decide (k ∉ seen)) := by
  intro xs
  induction xs with
  | nil => intro seen _; simp [dedupFirst]
  | cons x t ih =>
    intro seen hn
    rw [List.nodup_cons] at hn
    by_cases hx : x ∈ seen
    · rw [dedupFirst, if_pos hx, ih seen hn.2]
      simp [List.filter_cons, hx]
    · rw [dedupFirst, if_neg hx, ih (x :: seen) hn.2]
      have hhead : decide (x ∉ seen) = true := by simpa using hx
      simp only [List.filter_cons, hhead, if_true]
      congr 1
      apply List.filter_congr
      intro a ha
      have hax : a ≠ x := fun h => hn.1 (h ▸ ha)
      simp [List.mem_cons, hax]

theorem dedupFirst_append :
    ∀ (u w seen : List String),
      dedupFirst seen (u ++ w) =
        dedupFirst seen u ++ dedupFirst (seenAfter seen u) w := by
  intro u
  induction u with
  | nil => intro w seen; simp [dedupFirst, seenAfter]
  | cons x t ih =>
    intro w seen
    by_cases hx : x ∈ seen
    · rw [List.cons_append, dedupFirst, if_pos hx, dedupFirst, if_pos hx,
        seenAfter, if_pos hx, ih]
    · rw [List.cons_append, dedupFirst, if_neg hx, dedupFirst, if_neg hx,
        seenAfter, if_neg hx, ih]
      simp

theorem mem_seenAfter :
    ∀ (u seen : List String) (a : String),
      a ∈ seenAfter seen u ↔ a ∈ seen ∨ a ∈ u := by
  intro u
  induction u with
  | nil => intro seen a; simp [seenAfter]
  | cons x t ih =>
    intro seen a
    by_cases hx : x ∈ seen
    · rw [seenAfter, if_pos hx, ih]
      constructor
      · rintro (h | h)
        · exact Or.inl h
        · exact Or.inr (List.mem_cons_of_mem _ h)
      · rintro (h | h)
        · exact Or.inl h
        · rcases List.mem_cons.mp h with rfl | h
          · exact Or.inl hx
          · exact Or.inr h
    · rw [seenAfter, if_neg hx, ih]
      simp [List.mem_cons]
      tauto

theorem dedupFirst_union (u w : List String) (hu : u.Nodup) (hw : w.Nodup) :
    dedupFirst [] (u ++ w) = u ++ w.filter (fun k => decide (k ∉ u)) := by
  rw [dedupFirst_append, dedupFirst_nodup u [] hu,
    dedupFirst_nodup w _ hw]
  congr 1
  · simp
  · apply List.filter_congr
    intro a _
    have : a ∈ seenAfter [] u ↔ a ∈ u := by
      rw [mem_seenAfter]
      simp
    simp [this]

namespace JsonDiff

theorem objGo_flatMap (ofs nfs : List (String × JValue)) (bp : String) :
    ∀ keys : List String,
      objGo ofs nfs bp keys = keys.flatMap (specObjEntry ofs nfs bp) := by
  intro keys
  induction keys with
  | nil => simp [objGo]
  | cons key t ih =>
    rw [List.flatMap_cons, ← ih]
    rw [objGo]
    congr 1
    rcases h1 : ofs.lookup key with _ | ov <;>
      rcases h2 : nfs.lookup key with _ | nv <;>
        simp [specObjEntry, h1, h2]

end JsonDiff

open JsonDiff in
/-- C6: object diffing emits, for the union of the two key lists ordered as
the old object's keys then the new object's keys not already present, one
added change per new-only key, one removed change per old-only key, one
modified change per shared key with unequal scalar values (none when
equal), and the recursive diff's changes otherwise, each at the key's path;
in particular Scenario B yields exactly one added change at path
"version". -/
theorem c6_theorem :
    (∀ (ofs nfs : List (String × JValue)) (bp : String),
      (ofs.map Prod.fst).Nodup → (nfs.map Prod.fst).Nodup →
      (diffJson (JValue.vobj ofs) (JValue.vobj nfs) bp).changes =
        (ofs.map Prod.fst ++
          (nfs.map Prod.fst).filter
            (fun k => decide (k ∉ ofs.map Prod.fst))).flatMap
          (specObjEntry ofs nfs bp)) ∧
    ((diffJson (JValue.vobj [("name", JValue.vstr "g")])
        (JValue.vobj [("name", JValue.vstr "g"), ("version", JValue.vstr "v1")])
        "").changes =
      [⟨"version", JsonChangeType.added, none, some (JValue.vstr "v1")⟩]) := by
  constructor
  · intro ofs nfs bp ho hn
    rw [diffJson]
    simp only [isAbsent, isPrimitive, Bool.false_or, Bool.or_self,
      Bool.not_false, if_false, if_neg]
    rw [diffObjects]
    show objGo ofs nfs bp
      (dedupFirst [] (ofs.map Prod.fst ++ nfs.map Prod.fst)) = _
    rw [dedupFirst_union _ _ ho hn, objGo_flatMap]
  · rw [diffJson]
    simp [diffObjects, objGo, dedupFirst, buildResult, isAbsent,
      isPrimitive, primNe, childPath, rootPath, List.lookup]

open JsonDiff in
/-- C6 (witness): the per-key characterization applied at concrete objects
with distinct keys. -/
theorem c6_witness :
    (([("a", JValue.vnum 1)].map Prod.fst).Nodup ∧
      ([("b", JValue.vnum 2)].map (Prod.fst (β := JValue))).Nodup) ∧
    (diffJson (JValue.vobj [("a", JValue.vnum 1)])
        (JValue.vobj [("b", JValue.vnum 2)]) "").changes =
      ([("a", JValue.vnum 1)].map Prod.fst ++
        ([("b", JValue.vnum 2)].map Prod.fst).filter
          (fun k => decide (k ∉ [("a", JValue.vnum 1)].map Prod.fst))).flatMap
        (specObjEntry [("a", JValue.vnum 1)] [("b", JValue.vnum 2)] "") :=
  ⟨⟨by simp, by simp⟩,
    c6_theorem.1 [("a", JValue.vnum 1)] [("b", JValue.vnum 2)] ""
      (by simp) (by simp)⟩

namespace Evaluation

theorem countRuns_nil : countRuns [] = 0 := by
  simp [countRuns]

theorem wsRunCount_nil : wsRunCount [] = 0 := by
  simp [wsRunCount]

theorem countRuns_cons_ws {c : Char} (h : isWs c = true) (t : List Char) :
    countRuns (c :: t) = countRuns t := by
  rw [countRuns, if_pos h]

theorem countRuns_cons_not_ws {c : Char} (h : ¬ isWs c = true) (t : List Char) :
    countRuns (c :: t) =
      1 + countRuns (t.dropWhile (fun d => ! isWs d)) := by
  rw [countRuns, if_neg h]

theorem wsRunCount_cons_ws {c : Char} (h : isWs c = true) (t : List Char) :
    wsRunCount (c :: t) = 1 + wsRunCount (t.dropWhile isWs) := by
  rw [wsRunCount, if_pos h]

theorem wsRunCount_cons_not_ws {c : Char} (h : ¬ isWs c = true)
    (t : List Char) : wsRunCount (c :: t) = wsRunCount t := by
  rw [wsRunCount, if_neg h]

theorem countRuns_dropWhile_ws (l : List Char) :
    countRuns (l.dropWhile isWs) = countRuns l := by
  induction l with
  | nil => simp
  | cons c t ih =>
    by_cases h : isWs c
    · rw [List.dropWhile_cons, if_pos h, ih, countRuns_cons_ws h]
    · rw [List.dropWhile_cons, if_neg h]

theorem countRuns_all_ws {l : List Char} (h : ∀ c ∈ l, isWs c = true) :
    countRuns l = 0 := by
  induction l with
  | nil => exact countRuns_nil
  | cons c t ih =>
    rw [countRuns_cons_ws (h c (List.mem_cons_self c t))]
    exact ih (fun d hd => h d (List.mem_cons_of_mem c hd))

theorem countRuns_append_all_ws :
    ∀ (t m : List Char), (∀ c ∈ m, isWs c = true) →
      countRuns (t ++ m) = countRuns t := by
  intro t
  induction t using countRuns.induct with
  | case1 =>
    intro m hm
    rw [List.nil_append, countRuns_nil]
    exact countRuns_all_ws hm
  | case2 c rest h ih =>
    intro m hm
    rw [List.cons_append, countRuns_cons_ws h, countRuns_cons_ws h]
    exact ih m hm
  | case3 c rest h ih =>
    intro m hm
    rw [List.cons_append, countRuns_cons_not_ws h, countRuns_cons_not_ws h]
    rw [List.dropWhile_append]
    by_cases hnil : (rest.dropWhile (fun d => ! isWs d)).isEmpty
    · rw [if_pos hnil]
      have hall : ∀ c ∈ m.dropWhile (fun d => ! isWs d), isWs c = true :=
        fun c hc => hm c (List.dropWhile_subset _ hc)
      rw [List.isEmpty_iff] at hnil
      rw [hnil, countRuns_all_ws hall, countRuns_nil]
    · rw [if_neg hnil]
      congr 1
      exact ih m hm

end Evaluation

namespace Evaluation

theorem splitWsRuns_length :
    ∀ (l cur : List Char), (splitWsRuns l cur).length = 1 + wsRunCount l := by
  intro l
  induction l using wsRunCount.induct with
  | case1 =>
    intro cur
    simp [splitWsRuns, wsRunCount_nil]
  | case2 c rest h ih =>
    intro cur
    rw [splitWsRuns, if_pos h, wsRunCount_cons_ws h]
    simp [ih]
    omega
  | case3 c rest h ih =>
    intro cur
    rw [splitWsRuns, if_neg h, wsRunCount_cons_not_ws h]
    exact ih _

theorem wsRunCount_nonws_skip :
    ∀ (a r : List Char), (∀ c ∈ a, ¬ isWs c = true) →
      wsRunCount (a ++ r) = wsRunCount r := by
  intro a
  induction a with
  | nil => intro r _; rfl
  | cons c t ih =>
    intro r ha
    rw [List.cons_append,
      wsRunCount_cons_not_ws (ha c (List.mem_cons_self c t))]
    exact ih r (fun d hd => ha d (List.mem_cons_of_mem c hd))

end Evaluation

namespace Evaluation

theorem countRuns_boundary :
    ∀ (n : Nat) (t : List Char), t.length ≤ n → t ≠ [] →
      (∀ c, t.head? = some c → isWs c = false) →
      (∀ c, t.getLast? = some c → isWs c = false) →
      countRuns t = 1 + wsRunCount t := by
  intro n
  induction n with
  | zero =>
    intro t hlen hne _ _
    cases t with
    | nil => exact absurd rfl hne
    | cons c rest => simp at hlen
  | succ n ih =>
    intro t hlen hne hhead hlast
    cases t with
    | nil => exact absurd rfl hne
    | cons c rest =>
    have hc : ¬ isWs c = true := by
      have := hhead c rfl
      simp [this]
    rw [countRuns_cons_not_ws hc, wsRunCount_cons_not_ws hc]
    have hsplit : rest.takeWhile (fun d => ! isWs d) ++
        rest.dropWhile (fun d => ! isWs d) = rest :=
      List.takeWhile_append_dropWhile _ _
    have htakews : ∀ d ∈ rest.takeWhile (fun d => ! isWs d),
        ¬ isWs d = true := by
      intro d hd
      have := List.mem_takeWhile_imp hd
      simpa using this
    have hws : wsRunCount rest =
        wsRunCount (rest.dropWhile (fun d => ! isWs d)) := by
      conv_lhs => rw [← hsplit]
      exact wsRunCount_nonws_skip _ _ htakews
    rw [hws]
    cases hr2 : rest.dropWhile (fun d => ! isWs d) with
    | nil => rw [countRuns_nil, wsRunCount_nil]
    | cons d rest₃ =>
      have hd : isWs d = true := by
        have hsome := List.head?_dropWhile_not (fun d => ! isWs d) rest
        rw [hr2] at hsome
        simpa using hsome
      rw [countRuns_cons_ws hd, wsRunCount_cons_ws hd]
      rw [← countRuns_dropWhile_ws rest₃]
      have hsplit3 : rest₃.takeWhile isWs ++ rest₃.dropWhile isWs = rest₃ :=
        List.takeWhile_append_dropWhile _ _
      have hshape : c :: rest =
          (c :: (rest.takeWhile (fun d => ! isWs d) ++
            d :: rest₃.takeWhile isWs)) ++ rest₃.dropWhile isWs := by
        conv_lhs => rw [← hsplit, hr2]
        conv_lhs => rw [← hsplit3]
        simp
      have hr4ne : rest₃.dropWhile isWs ≠ [] := by
        intro h4
        have hall3 : ∀ e ∈ rest₃, isWs e = true :=
          List.dropWhile_eq_nil_iff.mp h4
        have hne23 : (d :: rest₃) ≠ [] := by simp
        have hgl : (d :: rest₃).getLast? =
            some ((d :: rest₃).getLast hne23) :=
          List.getLast?_eq_getLast _ hne23
        have hmem := List.getLast_mem hne23
        have hwsx : isWs ((d :: rest₃).getLast hne23) = true := by
          rcases List.mem_cons.mp hmem with he | he
          · rw [he]; exact hd
          · exact hall3 _ he
        have hlastt : (c :: rest).getLast? =
            some ((d :: rest₃).getLast hne23) := by
          have : c :: rest =
              (c :: rest.takeWhile (fun d => ! isWs d)) ++ (d :: rest₃) := by
            conv_lhs => rw [← hsplit, hr2]
            simp
          rw [this, List.getLast?_append, hgl]
          rfl
        have := hlast _ hlastt
        rw [hwsx] at this
        exact absurd this (by simp)
      obtain ⟨e4, rest4tail, hr4⟩ := List.exists_cons_of_ne_nil hr4ne
      have hlen4 : (rest₃.dropWhile isWs).length ≤ n := by
        have h1 := dropWhile_length_le isWs rest₃
        have h2 := dropWhile_length_le (fun d => ! isWs d) rest
        rw [hr2] at h2
        simp only [List.length_cons] at h2 hlen
        omega
      have hhead4 : ∀ e, (rest₃.dropWhile isWs).head? = some e →
          isWs e = false := by
        intro e he
        have hsome := List.head?_dropWhile_not isWs rest₃
        rw [he] at hsome
        simpa using hsome
      have hlast4 : ∀ e, (rest₃.dropWhile isWs).getLast? = some e →
          isWs e = false := by
        intro e he
        apply hlast
        rw [hshape, List.getLast?_append, he]
        rfl
      have := ih (rest₃.dropWhile isWs) hlen4 hr4ne hhead4 hlast4
      omega

end Evaluation

namespace Evaluation

theorem countWords_eq_countRuns (s : String) :
    countWords s = countRuns s.toList := by
  by_cases hcase : s = "" ∨ jsTrim s = ""
  · rw [countWords, if_pos hcase]
    rcases hcase with rfl | hemp
    · exact (countRuns_nil).symm
    · have hX : ((s.toList.dropWhile isWs).reverse.dropWhile isWs).reverse =
          [] := congrArg String.data hemp
      have hdropnil : (s.toList.dropWhile isWs).reverse.dropWhile isWs = [] := by
        have := congrArg List.reverse hX
        simpa using this
      have hallrev : ∀ e ∈ (s.toList.dropWhile isWs).reverse, isWs e = true :=
        List.dropWhile_eq_nil_iff.mp hdropnil
      have hall : ∀ e ∈ s.toList.dropWhile isWs, isWs e = true := by
        intro e he
        exact hallrev e (List.mem_reverse.mpr he)
      rw [← countRuns_dropWhile_ws s.toList]
      exact (countRuns_all_ws hall).symm
  · rw [countWords, if_neg hcase]
    push_neg at hcase
    obtain ⟨hs, htrim⟩ := hcase
    set l₁ := s.toList.dropWhile isWs with hl₁
    set X := (l₁.reverse.dropWhile isWs).reverse with hXdef
    have hXlist : (jsTrim s).toList = X := rfl
    rw [hXlist, splitWsRuns_length]
    have hXne : X ≠ [] := by
      intro h
      apply htrim
      show String.mk X = ""
      rw [h]
    have hdropne : l₁.reverse.dropWhile isWs ≠ [] := by
      intro h
      apply hXne
      rw [hXdef, h]
      rfl
    have htrail : X ++ (l₁.reverse.takeWhile isWs).reverse = l₁ := by
      rw [hXdef, ← List.reverse_append, List.takeWhile_append_dropWhile,
        List.reverse_reverse]
    have htrailws : ∀ e ∈ (l₁.reverse.takeWhile isWs).reverse,
        isWs e = true := by
      intro e he
      exact List.mem_takeWhile_imp (List.mem_reverse.mp he)
    have hXlast : ∀ e, X.getLast? = some e → isWs e = false := by
      intro e he
      rw [hXdef, List.getLast?_reverse] at he
      have hsome := List.head?_dropWhile_not isWs l₁.reverse
      rw [he] at hsome
      simpa using hsome
    have hXhead : ∀ e, X.head? = some e → isWs e = false := by
      intro e he
      rw [hXdef, List.head?_reverse] at he
      have hgl : l₁.reverse.getLast? = some e := by
        conv_lhs => rw [← List.takeWhile_append_dropWhile (p := isWs)
          (l := l₁.reverse)]
        rw [List.getLast?_append, he]
        rfl
      rw [List.getLast?_reverse] at hgl
      have hsome := List.head?_dropWhile_not isWs s.toList
      rw [← hl₁, hgl] at hsome
      simpa using hsome
    have hboundary := countRuns_boundary X.length X (le_refl _) hXne hXhead
      hXlast
    rw [← countRuns_dropWhile_ws s.toList, ← hl₁, ← htrail,
      countRuns_append_all_ws _ _ htrailws, hboundary]

end Evaluation

open Evaluation in
/-- C9: the MaxWords word count equals the number of maximal
whitespace-free runs of the string (whitespace-delimited tokens; empty or
whitespace-only text counts zero words), the expectation passes exactly
when that count is at most the limit, and on the boundary cases
evaluateMaxWords("", 0) passes while evaluateMaxWords("one two", 1) fails
with wordCount 2 recorded in the details. -/
theorem c9_theorem :
    (∀ s : String, countWords s = countRuns s.toList) ∧
    (∀ (output : String) (value : ℚ),
      (evaluateMaxWords output value).passed =
        decide ((countWords output : ℚ) ≤ value)) ∧
    (evaluateMaxWords "" 0).passed = true ∧
    (evaluateMaxWords "one two" 1).passed = false ∧
    (evaluateMaxWords "one two" 1).details =
      some (Details.maxWordsDetails 2 1 false) := by
  have hcw : countWords "one two" = 2 := by
    simp [countWords, jsTrim, isWs, splitWsRuns]
  refine ⟨countWords_eq_countRuns, fun output value => rfl, ?_, ?_, ?_⟩
  · simp [evaluateMaxWords, countWords, jsTrim]
  · simp [evaluateMaxWords, hcw]
  · simp [evaluateMaxWords, hcw]

namespace Evaluation

theorem takeWhile_all_append {p : Char → Bool} :
    ∀ (a : List Char) (b : Char) (r : List Char), (∀ c ∈ a, p c = true) →
      p b = false → ((a ++ b :: r).takeWhile p = a ∧
        (a ++ b :: r).dropWhile p = b :: r) := by
  intro a
  induction a with
  | nil =>
    intro b r _ hb
    constructor
    · simp [List.takeWhile_cons, hb]
    · simp [List.dropWhile_cons, hb]
  | cons c t ih =>
    intro b r ha hb
    have hc := ha c (List.mem_cons_self c t)
    have ht := ih b r (fun d hd => ha d (List.mem_cons_of_mem c hd)) hb
    constructor
    · rw [List.cons_append, List.takeWhile_cons, hc]
      simp [ht.1]
    · rw [List.cons_append, List.dropWhile_cons, hc]
      simp [ht.2]

theorem tokenize_lit_run :
    ∀ (s r : List Char), '\x7b' ∉ s →
      tokenize (s ++ r) = s.map Tok.lit ++ tokenize r := by
  intro s
  induction s with
  | nil => intro r _; simp
  | cons c s' ih =>
    intro r hs
    have hc : c ≠ '\x7b' := fun h => hs (h ▸ List.mem_cons_self c s')
    have hs' : '\x7b' ∉ s' := fun h => hs (List.mem_cons_of_mem c h)
    rw [List.cons_append]
    cases hsr : s' ++ r with
    | nil =>
      obtain ⟨rfl, rfl⟩ := List.append_eq_nil.mp hsr
      simp [tokenize]
    | cons c2 rest2 =>
      have h2 := ih r hs'
      rw [hsr] at h2
      rw [tokenize.eq_3, if_neg (fun h => hc h.1), h2]
      simp

theorem tokenize_all_lit (s : List Char) (hs : '\x7b' ∉ s) :
    tokenize s = s.map Tok.lit := by
  have := tokenize_lit_run s [] hs
  simpa [tokenize] using this

theorem tokenize_ph (name : List Char) (r : List Char) (hne : name ≠ [])
    (hw : ∀ c ∈ name, isWordChar c = true) :
    tokenize ('\x7b' :: '\x7b' :: (name ++ '\x7d' :: '\x7d' :: r)) =
      Tok.ph (String.mk name) :: tokenize r := by
  have hbrace : isWordChar '\x7d' = false := by decide
  have htw := takeWhile_all_append name '\x7d' ('\x7d' :: r) hw hbrace
  have hre : name ++ '\x7d' :: '\x7d' :: r =
      (name ++ ['\x7d', '\x7d']) ++ r := by
    simp
  have hdrop2 : (name ++ '\x7d' :: '\x7d' :: r).drop (name.length + 2) =
      r := by
    rw [hre, show name.length + 2 = (name ++ ['\x7d', '\x7d']).length by simp,
      List.drop_left]
  rw [tokenize.eq_3, if_pos ⟨rfl, rfl⟩]
  simp only [htw.1]
  rw [if_pos ⟨hne, by rw [List.drop_left]; rfl⟩, hdrop2]

end Evaluation

namespace Evaluation

theorem renderToks_lit_run (vars : List (String × VarValue))
    (strat : MissingVariableStrategy) (ph : String) :
    ∀ (s : List Char) (ts : List Tok),
      renderToks vars strat ph (s.map Tok.lit ++ ts) =
        (renderToks vars strat ph ts).map (fun l => s ++ l) := by
  intro s
  induction s with
  | nil =>
    intro ts
    cases h : renderToks vars strat ph ts <;> simp [h, Except.map]
  | cons c s' ih =>
    intro ts
    rw [List.map_cons, List.cons_append, renderToks, ih ts]
    cases h : renderToks vars strat ph ts <;> simp [h, Except.map]

theorem filterMap_ph_lit (s : List Char) :
    ((s.map Tok.lit).filterMap
      (fun t => match t with | Tok.ph n => some n | _ => none)) =
      ([] : List String) := by
  induction s with
  | nil => rfl
  | cons c s' ih => simp [List.filterMap_cons, ih]

/-- C7 helper: the full render of a two-placeholder template with only the
first variable provided, default options. -/
theorem renderTemplate_two_ph (s0 s1 s2 : List Char) (A B : String)
    (v : VarValue)
    (hA : A.toList ≠ []) (hAw : ∀ c ∈ A.toList, isWordChar c = true)
    (hB : B.toList ≠ []) (hBw : ∀ c ∈ B.toList, isWordChar c = true)
    (hAB : A ≠ B)
    (h0 : '\x7b' ∉ s0) (h1 : '\x7b' ∉ s1) (h2 : '\x7b' ∉ s2) :
    tokenize (s0 ++ '\x7b' :: '\x7b' :: (A.toList ++ '\x7d' :: '\x7d' ::
        (s1 ++ '\x7b' :: '\x7b' :: (B.toList ++ '\x7d' :: '\x7d' :: s2)))) =
      s0.map Tok.lit ++ Tok.ph A ::
        (s1.map Tok.lit ++ Tok.ph B :: s2.map Tok.lit) ∧
    extractVariables (String.mk
        (s0 ++ '\x7b' :: '\x7b' :: (A.toList ++ '\x7d' :: '\x7d' ::
          (s1 ++ '\x7b' :: '\x7b' :: (B.toList ++ '\x7d' :: '\x7d' :: s2))))) =
      [A, B] := by
  have hAB' : ¬ (B = A) := fun h => hAB h.symm
  have htokens : tokenize (s0 ++ '\x7b' :: '\x7b' ::
      (A.toList ++ '\x7d' :: '\x7d' ::
        (s1 ++ '\x7b' :: '\x7b' :: (B.toList ++ '\x7d' :: '\x7d' :: s2)))) =
      s0.map Tok.lit ++ Tok.ph A ::
        (s1.map Tok.lit ++ Tok.ph B :: s2.map Tok.lit) := by
    rw [tokenize_lit_run s0 _ h0, tokenize_ph A.toList _ hA hAw,
      tokenize_lit_run s1 _ h1, tokenize_ph B.toList _ hB hBw,
      tokenize_all_lit s2 h2]
    rfl
  refine ⟨htokens, ?_⟩
  rw [extractVariables]
  show dedupFirst [] ((tokenize (s0 ++ '\x7b' :: '\x7b' ::
      (A.toList ++ '\x7d' :: '\x7d' ::
        (s1 ++ '\x7b' :: '\x7b' ::
          (B.toList ++ '\x7d' :: '\x7d' :: s2))))).filterMap
      (fun t => match t with | Tok.ph n => some n | _ => none)) = [A, B]
  rw [htokens]
  rw [List.filterMap_append, filterMap_ph_lit, List.filterMap_cons,
    List.filterMap_append, filterMap_ph_lit, List.filterMap_cons,
    filterMap_ph_lit]
  simp [dedupFirst, hAB']

end Evaluation

namespace Evaluation

/-- C7 helper: renderTemplate on the two-placeholder template, default
options, only the first variable provided. -/
theorem renderTemplate_two_ph_eval (s0 s1 s2 : List Char) (A B : String)
    (v : VarValue)
    (hA : A.toList ≠ []) (hAw : ∀ c ∈ A.toList, isWordChar c = true)
    (hB : B.toList ≠ []) (hBw : ∀ c ∈ B.toList, isWordChar c = true)
    (hAB : A ≠ B)
    (h0 : '\x7b' ∉ s0) (h1 : '\x7b' ∉ s1) (h2 : '\x7b' ∉ s2) :
    renderTemplate (String.mk
        (s0 ++ '\x7b' :: '\x7b' :: (A.toList ++ '\x7d' :: '\x7d' ::
          (s1 ++ '\x7b' :: '\x7b' :: (B.toList ++ '\x7d' :: '\x7d' :: s2)))))
      [(A, v)] {} =
      Except.ok (String.mk (s0 ++ (varText v).toList ++ s1 ++
        ("\x7b\x7bMISSING\x7d\x7d" : String).toList ++ s2)) := by
  obtain ⟨htokens, hextract⟩ :=
    renderTemplate_two_ph s0 s1 s2 A B v hA hAw hB hBw hAB h0 h1 h2
  have hAB' : ¬ (B = A) := fun h => hAB h.symm
  have hlookupA : List.lookup A [(A, v)] = some v := by simp
  have hBA : (B == A) = false := by
    simpa using hAB'
  have hlookupB : List.lookup B [(A, v)] = none := by
    simp [List.lookup, hBA]
  have hstepA : ∀ ts, renderToks [(A, v)] MissingVariableStrategy.warn
      "\x7b\x7bMISSING\x7d\x7d" (Tok.ph A :: ts) =
      (renderToks [(A, v)] MissingVariableStrategy.warn
        "\x7b\x7bMISSING\x7d\x7d" ts).map
        (fun l => (varText v).toList ++ l) := by
    intro ts
    simp only [renderToks, hlookupA]
  have hstepB : ∀ ts, renderToks [(A, v)] MissingVariableStrategy.warn
      "\x7b\x7bMISSING\x7d\x7d" (Tok.ph B :: ts) =
      (renderToks [(A, v)] MissingVariableStrategy.warn
        "\x7b\x7bMISSING\x7d\x7d" ts).map
        (fun l => ("\x7b\x7bMISSING\x7d\x7d" : String).toList ++ l) := by
    intro ts
    simp only [renderToks, hlookupB]
  have hbase : renderToks [(A, v)] MissingVariableStrategy.warn
      "\x7b\x7bMISSING\x7d\x7d" (s2.map Tok.lit) = Except.ok s2 := by
    have h := renderToks_lit_run [(A, v)] MissingVariableStrategy.warn
      "\x7b\x7bMISSING\x7d\x7d" s2 []
    rw [List.append_nil] at h
    rw [h]
    simp [renderToks, Except.map]
  rw [renderTemplate]
  simp only [hextract]
  rw [if_neg (by simp)]
  show (renderToks [(A, v)] MissingVariableStrategy.warn
      "\x7b\x7bMISSING\x7d\x7d"
      (tokenize (s0 ++ '\x7b' :: '\x7b' ::
        (A.toList ++ '\x7d' :: '\x7d' ::
          (s1 ++ '\x7b' :: '\x7b' ::
            (B.toList ++ '\x7d' :: '\x7d' :: s2)))))).map String.mk = _
  rw [htokens, renderToks_lit_run, hstepA, renderToks_lit_run, hstepB,
    hbase]
  simp [Except.map, List.append_assoc]

end Evaluation

open Evaluation in
/-- C7: for a template whose placeholders are exactly A then B (each a
nonempty word-character name, A and B distinct, the literal segments free of
opening braces), with only A provided and default options (warn strategy,
default placeholder), rendering succeeds with the missing placeholder
substituted exactly where B occurred and A's value where A occurred, and
renderTemplateWithMetadata reports missingVariables = [B] (and no unused
variables). -/
theorem c7_theorem (s0 s1 s2 : List Char) (A B : String) (v : VarValue)
    (hA : A.toList ≠ []) (hAw : ∀ c ∈ A.toList, isWordChar c = true)
    (hB : B.toList ≠ []) (hBw : ∀ c ∈ B.toList, isWordChar c = true)
    (hAB : A ≠ B)
    (h0 : '\x7b' ∉ s0) (h1 : '\x7b' ∉ s1) (h2 : '\x7b' ∉ s2) :
    renderTemplateWithMetadata (String.mk
        (s0 ++ '\x7b' :: '\x7b' :: (A.toList ++ '\x7d' :: '\x7d' ::
          (s1 ++ '\x7b' :: '\x7b' :: (B.toList ++ '\x7d' :: '\x7d' :: s2)))))
      [(A, v)] {} =
      Except.ok
        { rendered := String.mk (s0 ++ (varText v).toList ++ s1 ++
            ("\x7b\x7bMISSING\x7d\x7d" : String).toList ++ s2)
          missingVariables := [B]
          unusedVariables := [] } := by
  obtain ⟨htokens, hextract⟩ :=
    renderTemplate_two_ph s0 s1 s2 A B v hA hAw hB hBw hAB h0 h1 h2
  have hrender :=
    renderTemplate_two_ph_eval s0 s1 s2 A B v hA hAw hB hBw hAB h0 h1 h2
  have hAB' : ¬ (B = A) := fun h => hAB h.symm
  have hBA : (B == A) = false := by simpa using hAB'
  simp only [renderTemplateWithMetadata, hextract, hrender]
  simp [dedupFirst, hBA, hAB']

open Evaluation in
/-- C7 (witness): the render-with-metadata behaviour at a concrete template
"Hi {{name}} and {{other}}!" with only name provided. -/
theorem c7_witness :
    ("name" : String).toList ≠ [] ∧
    (∀ c ∈ ("name" : String).toList, isWordChar c = true) ∧
    ("other" : String).toList ≠ [] ∧
    (∀ c ∈ ("other" : String).toList, isWordChar c = true) ∧
    ("name" : String) ≠ "other" ∧
    '\x7b' ∉ ("Hi " : String).toList ∧
    '\x7b' ∉ (" and " : String).toList ∧
    '\x7b' ∉ ("!" : String).toList ∧
    renderTemplateWithMetadata (String.mk
        (("Hi " : String).toList ++ '\x7b' :: '\x7b' ::
          (("name" : String).toList ++ '\x7d' :: '\x7d' ::
            ((" and " : String).toList ++ '\x7b' :: '\x7b' ::
              (("other" : String).toList ++ '\x7d' :: '\x7d' ::
                ("!" : String).toList)))))
      [("name", some "Alice")] {} =
      Except.ok
        { rendered := String.mk (("Hi " : String).toList ++
            (varText (some "Alice")).toList ++ (" and " : String).toList ++
            ("\x7b\x7bMISSING\x7d\x7d" : String).toList ++
            ("!" : String).toList)
          missingVariables := ["other"]
          unusedVariables := [] } :=
  ⟨by decide, by decide, by decide, by decide, by decide, by decide,
    by decide, by decide,
    c7_theorem ("Hi " : String).toList (" and " : String).toList
      ("!" : String).toList "name" "other" (some "Alice")
      (by decide) (by decide) (by decide) (by decide) (by decide)
      (by decide) (by decide) (by decide)⟩
